import Mathlib

/-!
Verification development for the `nx migrate` core
(`packages/nx/src/command-line/migrate.ts`): the semver normalizer, the
plan-command argument parser, the Migrator (planner), the migration-list
assembly, the workspace-manifest rewriter and the migration fetcher.

The TypeScript source is shallowly embedded: JS records become ordered
association lists (`List (String × α)`), JS string truthiness is modelled
explicitly, promise-based code is sequentialized (the scheduling model of the
source is single-threaded cooperative), and the recursive planner takes a fuel
parameter; external collaborators (the registry, the installed-version
resolver's file reads, the prompt driver and the semver `satisfies` range
engine) are parameters of the model, exactly as they are injected parameters
(`MigratorOptions`) in the source.
-/

set_option maxRecDepth 10000

namespace NxMigrate

/-! ## JS-style helpers over ordered association lists -/

/-- Lookup in a JS record: first entry with the key (JS records have unique
keys; on lists the first one is authoritative, like `obj[k]`). -/
def jsGet {α : Type} (l : List (String × α)) (k : String) : Option α :=
  (l.find? (fun e => e.1 = k)).map (fun e => e.2)

/-- JS assignment `obj[k] = v`: overwrite in place if the key exists
(keeping its position, as JS objects do), otherwise append. -/
def objSet {α : Type} (l : List (String × α)) (k : String) (v : α) :
    List (String × α) :=
  if l.any (fun e => e.1 = k) then
    l.map (fun e => if e.1 = k then (k, v) else e)
  else
    l ++ [(k, v)]

/-- JS `obj[k] ??= v`: assign only when the key is absent (nullish),
regardless of truthiness of the present value. -/
def objSetIfAbsent {α : Type} (l : List (String × α)) (k : String) (v : α) :
    List (String × α) :=
  match jsGet l k with
  | some _ => l
  | none => objSet l k v

/-- JS truthiness of a possibly-absent string: `undefined`/`null` and the
empty string are falsy. -/
def truthy : Option String → Bool
  | some s => !(s = "")
  | none => false

/-! ## Character-level string helpers (total, kernel-reducible)

The JS string operations used by the source (`split`, `indexOf`,
`lastIndexOf`, `substring`, `trim`, regexp tests) are modelled on `List Char`
so that every definition reduces by computation. -/

/-- `String.split(sep)` for a one-character separator; JS semantics:
`"".split('-') = [""]` and separators at the ends produce empty segments. -/
def jsSplitList (sep : Char) : List Char → List (List Char)
  | [] => [[]]
  | c :: cs =>
    match jsSplitList sep cs with
    | [] => [[]]
    | seg :: segs => if c = sep then [] :: seg :: segs else (c :: seg) :: segs

def jsSplit (sep : Char) (s : String) : List String :=
  (jsSplitList sep s.toList).map List.asString

/-- Whitespace for `String.trim` (the source's inputs are ASCII). -/
def isWsChar (c : Char) : Bool :=
  c = ' ' || c = '\t' || c = '\n' || c = '\r'

def jsTrim (s : String) : String :=
  (((s.toList.dropWhile isWsChar).reverse.dropWhile isWsChar).reverse).asString

def allDigits (l : List Char) : Bool := l.all Char.isDigit

/-- Decimal value of a digit string. -/
def digitsVal (l : List Char) : Nat :=
  l.foldl (fun acc c => acc * 10 + (c.toNat - 48)) 0

/-! ## Semver model (node-semver, strict mode)

`semver.gt/lt/gte/lte` parse both arguments with the strict grammar
`v? major.minor.patch (-prerelease)? (+build)?` (surrounding whitespace
trimmed) and throw `Invalid Version` when parsing fails; comparison follows
the semver 2.0 precedence rules and ignores build metadata.  The `Option`
result of the `...S` comparators models the possible throw (`none`). -/

/-- A prerelease identifier: purely numeric identifiers compare numerically
and are lower than alphanumeric ones. -/
inductive PreId where
  | num (n : Nat)
  | str (s : String)
deriving DecidableEq

structure SemVer where
  major : Nat
  minor : Nat
  patch : Nat
  prerelease : List PreId
  build : List String
deriving DecidableEq

/-- Numeric identifier of the strict grammar: `0 | [1-9][0-9]*`. -/
def parseNumId (l : List Char) : Option Nat :=
  match l with
  | [] => none
  | c :: cs =>
    if allDigits (c :: cs) then
      if c = '0' ∧ cs ≠ [] then none else some (digitsVal (c :: cs))
    else none

def isIdChar (c : Char) : Bool := c.isAlphanum || c = '-'

/-- Prerelease identifier: a numeric identifier without leading zeros, or an
alphanumeric-and-hyphen identifier containing at least one non-digit. -/
def parsePreId (l : List Char) : Option PreId :=
  match l with
  | [] => none
  | _ =>
    if l.all isIdChar then
      if allDigits l then (parseNumId l).map PreId.num
      else some (.str l.asString)
    else none

/-- Build identifier: nonempty, `[0-9A-Za-z-]+` (leading zeros allowed). -/
def parseBuildId (l : List Char) : Option String :=
  match l with
  | [] => none
  | _ => if l.all isIdChar then some l.asString else none

def parseDotted {α : Type} (p : List Char → Option α) (l : List Char) :
    Option (List α) :=
  (jsSplitList '.' l).mapM p

/-- The `major.minor.patch` core. -/
def parseMain (l : List Char) : Option (Nat × Nat × Nat) :=
  match jsSplitList '.' l with
  | [a, b, c] => do
    let x ← parseNumId a
    let y ← parseNumId b
    let z ← parseNumId c
    pure (x, y, z)
  | _ => none

/-- Strict node-semver parse: trim, one optional leading `v`, then
`main (-prerelease)? (+build)?`.  The first `-` after the main part starts the
prerelease (prerelease identifiers may themselves contain `-`), the first `+`
starts the build metadata. -/
def parseSemVer (s0 : String) : Option SemVer :=
  let t := (jsTrim s0).toList
  let t := match t with
    | 'v' :: rest => rest
    | _ => t
  let (corePre, build?) :=
    match jsSplitList '+' t with
    | [cp] => (some cp, some ([] : List (List Char)))
    | [cp, b] => (some cp, some [b])
    | _ => (none, none)
  match corePre, build? with
  | some cp, some bparts => do
    let bids ← bparts.mapM (fun b => parseDotted parseBuildId b)
    let (mainPart, preAll) :=
      match jsSplitList '-' cp with
      | [] => (([] : List Char), none)
      | m :: rest =>
        (m, if rest = [] then none
            else some ((rest.map List.asString).intersperse "-"
              |>.foldl (fun a b => a ++ b) ""))
    let (mj, mn, pt) ← parseMain mainPart
    let pre ← match preAll with
      | none => pure ([] : List PreId)
      | some p => parseDotted parsePreId p.toList
    pure ⟨mj, mn, pt, pre, bids.flatten⟩
  | _, _ => none

def natCmp (a b : Nat) : Ordering :=
  if a < b then .lt else if b < a then .gt else .eq

def charCmp (a b : Char) : Ordering := natCmp a.toNat b.toNat

def lexCmp : List Char → List Char → Ordering
  | [], [] => .eq
  | [], _ :: _ => .lt
  | _ :: _, [] => .gt
  | a :: as_, b :: bs =>
    match charCmp a b with
    | .eq => lexCmp as_ bs
    | o => o

def strCmp (a b : String) : Ordering := lexCmp a.toList b.toList

def preIdCmp : PreId → PreId → Ordering
  | .num a, .num b => natCmp a b
  | .num _, .str _ => .lt
  | .str _, .num _ => .gt
  | .str a, .str b => strCmp a b

/-- Prerelease list comparison once both are nonempty: identifier-wise, a
strict prefix is lower. -/
def preListCmp : List PreId → List PreId → Ordering
  | [], [] => .eq
  | [], _ :: _ => .lt
  | _ :: _, [] => .gt
  | a :: as_, b :: bs =>
    match preIdCmp a b with
    | .eq => preListCmp as_ bs
    | o => o

/-- A version without prerelease has higher precedence than one with. -/
def preCmp (a b : List PreId) : Ordering :=
  match a, b with
  | [], [] => .eq
  | [], _ :: _ => .gt
  | _ :: _, [] => .lt
  | _, _ => preListCmp a b

def semVerCmp (a b : SemVer) : Ordering :=
  match natCmp a.major b.major with
  | .eq =>
    match natCmp a.minor b.minor with
    | .eq =>
      match natCmp a.patch b.patch with
      | .eq => preCmp a.prerelease b.prerelease
      | o => o
    | o => o
  | o => o

/-- `semver.compare` on strings; `none` models the thrown `Invalid Version`. -/
def cmpS (a b : String) : Option Ordering :=
  match parseSemVer a, parseSemVer b with
  | some x, some y => some (semVerCmp x y)
  | _, _ => none

def gtS (a b : String) : Option Bool := (cmpS a b).map (fun o => o = .gt)
def ltS (a b : String) : Option Bool := (cmpS a b).map (fun o => o = .lt)
def gteS (a b : String) : Option Bool := (cmpS a b).map (fun o => !(o = .lt))
def lteS (a b : String) : Option Bool := (cmpS a b).map (fun o => !(o = .gt))

/-- `semver.valid(v)` as a boolean (node returns the parsed string / null). -/
def semverValid (s : String) : Bool := (parseSemVer s).isSome

/-! ## `normalizeVersion` (migrate.ts lines 58-87) -/

/-- The candidate loop of `normalizeVersion`: return the first variation for
which `gt(variation, baseline)` is true, where a thrown comparison is caught
and skipped like a false one; fall back to the baseline `0.0.0`. -/
def firstAboveZero (variationsToCheck : List String) : String :=
  ((variationsToCheck.find? (fun v => (gtS v "0.0.0").getD false)).getD
    "0.0.0")

/-- JS template interpolation `${part || 0}` for a possibly-missing segment. -/
def orZero : Option String → String
  | some s => if s = "" then "0" else s
  | none => "0"

/-- `normalizeVersion` from the source.  The JS split on the dash character
splits on every dash; the destructuring into semver and prereleaseTag keeps
the first two segments. -/
def normalizeVersion (version : String) : String :=
  let parts := jsSplit '-' version
  let semver := (parts[0]?).getD ""
  let prereleaseTag := parts[1]?
  let nums := jsSplit '.' semver
  let newSemver := orZero nums[0]? ++ "." ++ orZero nums[1]? ++ "." ++
    orZero nums[2]?
  let newVersion := match prereleaseTag with
    | some t => if t = "" then newSemver else newSemver ++ "-" ++ t
    | none => newSemver
  let withoutPatch := orZero nums[0]? ++ "." ++ orZero nums[1]? ++ ".0"
  let withoutPatchAndMinor := orZero nums[0]? ++ ".0.0"
  firstAboveZero [newVersion, newSemver, withoutPatch, withoutPatchAndMinor]

/-- `normalizeVersionWithTagCheck` (lines 547-550). -/
def normalizeVersionWithTagCheck (version : String) : String :=
  if version = "latest" ∨ version = "next" then version
  else normalizeVersion version

/-- The Migrator's private `gt`: compare after normalizing both sides
(normalized output always parses, so the comparison cannot throw). -/
def migGt (v1 v2 : String) : Bool :=
  (gtS (normalizeVersion v1) (normalizeVersion v2)).getD false

/-- The Migrator's private `lte`. -/
def migLte (v1 v2 : String) : Bool :=
  (lteS (normalizeVersion v1) (normalizeVersion v2)).getD false

/-- The claimed normalizer of spec §4.1 taken literally: split the input at
the FIRST `-` into a semver part and a (whole) prerelease part.  Written to
be compared with `normalizeVersion`, whose JS `split('-')` discards
everything after a second `-`. -/
def normalizeVersionFirstDashSplit (version : String) : String :=
  let cs := version.toList
  let semver := (cs.takeWhile (fun c => !(c = '-'))).asString
  let prereleaseTag :=
    match cs.dropWhile (fun c => !(c = '-')) with
    | [] => none
    | _ :: rest => some rest.asString
  let nums := jsSplit '.' semver
  let newSemver := orZero nums[0]? ++ "." ++ orZero nums[1]? ++ "." ++
    orZero nums[2]?
  let newVersion := match prereleaseTag with
    | some t => if t = "" then newSemver else newSemver ++ "-" ++ t
    | none => newSemver
  let withoutPatch := orZero nums[0]? ++ "." ++ orZero nums[1]? ++ ".0"
  let withoutPatchAndMinor := orZero nums[0]? ++ ".0.0"
  firstAboveZero [newVersion, newSemver, withoutPatch, withoutPatchAndMinor]

/-- The amended description of the normalizer, following the spec's words
with the one forced change: the input is split on `-` and only the first two
segments (semver part, first prerelease segment) are kept.  Builds the four
candidates `full, semverOnly, x.y.0, x.0.0` in that order and returns the
first that parses as a semver strictly greater than 0.0.0, else `0.0.0`. -/
def normalizeVersionSpecAmended (v : String) : String :=
  let segs := jsSplit '-' v
  let semverPart := segs.headD ""
  let prereleasePart := (segs.drop 1).head?
  let nums := jsSplit '.' semverPart
  let pick : Nat → String := fun i => orZero nums[i]?
  let base := pick 0 ++ "." ++ pick 1 ++ "." ++ pick 2
  let full := match prereleasePart with
    | some p => if p = "" then base else base ++ "-" ++ p
    | none => base
  let cands := [full, base, pick 0 ++ "." ++ pick 1 ++ ".0",
    pick 0 ++ ".0.0"]
  ((cands.filter (fun c => (gtS c "0.0.0").getD false)).head?).getD "0.0.0"

/-! ## `parseTargetPackageAndVersion` (lines 574-622) -/

/-- The numeric shorthand regexp of the source:
`^\d+(?:\.\d+)?(?:\.\d+)?$`. -/
def numericShorthand (s : String) : Bool :=
  let parts := jsSplit '.' s
  decide (1 ≤ parts.length) && decide (parts.length ≤ 3) &&
    parts.all (fun p =>
      match p.toList with
      | [] => false
      | l => allDigits l)

/-- `args.indexOf('@') > -1`. -/
def hasAtSign (s : String) : Bool := s.toList.any (fun c => c = '@')

/-- `parseTargetPackageAndVersion`.  Errors model the thrown `Error`s; the
`Invalid Version` arm mirrors the possible throw of the raw `lt` (it is
unreachable because the compared version is always normalized). -/
def parseTargetPackageAndVersion (args : String) :
    Except String (String × String) :=
  if args = "" then
    .error "Provide the correct package name and version. E.g., my-package@9.0.0."
  else if hasAtSign args then
    let cs := args.toList
    let i := cs.length - 1 - cs.reverse.findIdx (fun c => c = '@')
    if i = 0 then .ok (jsTrim args, "latest")
    else
      let targetPackage := (cs.take i).asString
      let maybeVersion := (cs.drop (i + 1)).asString
      if targetPackage = "" ∨ maybeVersion = "" then
        .error "Provide the correct package name and version. E.g., my-package@9.0.0."
      else .ok (targetPackage, normalizeVersionWithTagCheck maybeVersion)
  else
    if args = "latest" ∨ args = "next" ∨ semverValid args ∨
        numericShorthand args then
      let targetVersion := normalizeVersionWithTagCheck args
      if args = "latest" ∨ args = "next" then .ok ("nx", targetVersion)
      else
        match ltS targetVersion "14.0.0-beta.0" with
        | none => .error "Invalid Version"
        | some true => .ok ("@nrwl/workspace", targetVersion)
        | some false => .ok ("nx", targetVersion)
    else .ok (args, "latest")

/-! ## Data model (misc-interfaces + package-json unions) -/

/-- The two concrete manifest sections an update may be added to.  The JS
union of `false` with the two section-name strings is modelled as
`Option Sect` (`none` covers `false` and `undefined`: both are falsy
everywhere the field is read, and `updatePackageJson` applies a
string-typeof test). -/
inductive Sect where
  | dependencies
  | devDependencies
deriving DecidableEq

/-- `PackageJsonUpdateForPackage`. -/
structure PkgUpdate where
  version : String
  addToPackageJson : Option Sect := none
  alwaysAddToPackageJson : Bool := false
  ifPackageInstalled : Option String := none
deriving DecidableEq

/-- One `PackageJsonUpdates` entry.  `packages` keeps JS presence
(`!packageJsonUpdate.packages` is a nullish test); `requires` and `x-prompt`
collapse absent to empty, matching every read in the source. -/
structure UpdateEntry where
  version : String
  packages : Option (List (String × PkgUpdate)) := none
  requires : List (String × String) := []
  xPrompt : Option String := none
deriving DecidableEq

/-- A migration generator entry (only the fields the planner reads). -/
structure MigGenerator where
  version : String
  requires : List (String × String) := []
deriving DecidableEq

/-- A `packageGroup` as parsed: absent, a map, or a list whose elements are
bare strings or `{package, version}` objects. -/
inductive GroupElem where
  | str (s : String)
  | obj (package : String) (version : String)
deriving DecidableEq

inductive PackageGroup where
  | undef
  | map (entries : List (String × String))
  | arr (elems : List GroupElem)
deriving DecidableEq

/-- `ResolvedMigrationConfiguration` (a loaded `MigrationsJson` plus
`packageGroup`); `schematics` is the pre-rename legacy key. -/
structure MigConfig where
  version : String
  packageJsonUpdates : Option (List (String × UpdateEntry)) := none
  generators : Option (List (String × MigGenerator)) := none
  schematics : Option (List (String × MigGenerator)) := none
  packageGroup : PackageGroup := .undef
deriving DecidableEq

/-- The root `package.json` sections read and rewritten by the core. -/
structure PackageJsonFile where
  dependencies : Option (List (String × String)) := none
  devDependencies : Option (List (String × String)) := none
deriving DecidableEq

/-! ## `updatePackageJson` — the manifest rewriter (lines 951-980) -/

def getDep (j : PackageJsonFile) (p : String) : Option String :=
  j.dependencies.bind (fun l => jsGet l p)

def getDevDep (j : PackageJsonFile) (p : String) : Option String :=
  j.devDependencies.bind (fun l => jsGet l p)

/-- One iteration of the `Object.keys(updatedPackages).forEach` body. -/
def updatePackageJsonStep (json : PackageJsonFile)
    (p : String) (u : PkgUpdate) : PackageJsonFile :=
  if truthy (getDevDep json p) then
    { json with
      devDependencies := json.devDependencies.map (fun l => objSet l p u.version) }
  else if truthy (getDep json p) then
    { json with
      dependencies := json.dependencies.map (fun l => objSet l p u.version) }
  else
    match u.addToPackageJson with
    | some .dependencies =>
      { json with
        dependencies := some (objSet (json.dependencies.getD []) p u.version) }
    | some .devDependencies =>
      { json with
        devDependencies := some (objSet (json.devDependencies.getD []) p u.version) }
    | none => json

/-- `updatePackageJson` (the file-level manifest writer): for each planned
package, rewrite its entry where it already appears (devDependencies first),
else insert it into the section named by `addToPackageJson`, else leave the
manifest alone. -/
def updatePackageJson (json : PackageJsonFile)
    (updatedPackages : List (String × PkgUpdate)) : PackageJsonFile :=
  updatedPackages.foldl (fun j e => updatePackageJsonStep j e.1 e.2) json

/-! ## The Migrator (planner)

The source's `Migrator` is parameterized on its collaborators
(`MigratorOptions`): the workspace manifest, the installed-version resolver,
the fetcher, the override maps, and interactivity.  `MigEnv` collects the
immutable ones; `MigState` is the mutable planner state (`packageJsonUpdates`,
`collectedVersions`, and `installedPkgVersionOverrides`, which
`normalizePackageGroup` mutates).  The fetcher is a finite oracle:
`fetch(pkg, version)` resolves to the manifest stored under that key and
rejects (throws) when no entry exists.  The semver range engine
(`satisfies` with `includePrerelease: true`) and `cleanSemver`
(`clean ?? coerce`) are external collaborators kept abstract. -/

structure MigEnv where
  packageJson : PackageJsonFile
  installed : String → Option String
  satisfies : String → String → Bool
  cleanSemver : String → Option String
  confirm : String → Bool
  toPins : List (String × String)
  interactive : Bool
  fetch : List ((String × String) × MigConfig)

structure MigState where
  packageJsonUpdates : List (String × PkgUpdate) := []
  collectedVersions : List (String × String) := []
  installedPkgVersionOverrides : List (String × String) := []
deriving DecidableEq

/-- `this.getPkgVersion(pkg)`: the injected resolver checks the (current)
override map first (truthiness), then the workspace read (its memo cache and
legacy-name fallback live inside the collaborator `env.installed`). -/
def getPkgVersion (env : MigEnv) (st : MigState) (pkg : String) :
    Option String :=
  if truthy (jsGet st.installedPkgVersionOverrides pkg) then
    jsGet st.installedPkgVersionOverrides pkg
  else env.installed pkg

/-- `this.addPackageJsonUpdate(name, packageUpdate)` (lines 390-400): keep
the stored entry unless the incoming version is strictly greater under
normalized comparison. -/
def addPackageJsonUpdate (st : MigState) (name : String)
    (packageUpdate : PkgUpdate) : MigState :=
  match jsGet st.packageJsonUpdates name with
  | none =>
    { st with
      packageJsonUpdates := objSet st.packageJsonUpdates name packageUpdate }
  | some existing =>
    if migGt packageUpdate.version existing.version then
      { st with
        packageJsonUpdates := objSet st.packageJsonUpdates name packageUpdate }
    else st

/-- `this.areRequirementsMet(requirements, extraPackageUpdatesToCheck?)`
(lines 402-427).  Each required package must be satisfied by its installed
version, its already-planned version, or (when provided) the extra in-flight
update map after `cleanSemver`; `env.satisfies` is the collaborator's
`satisfies(·, ·, {includePrerelease: true})`, which returns `false` rather
than throwing on an unparsable version. -/
def areRequirementsMet (env : MigEnv) (st : MigState)
    (requirements : List (String × String))
    (extra : Option (List (String × PkgUpdate))) : Bool :=
  if requirements.isEmpty then true
  else
    requirements.all (fun e =>
      (truthy (getPkgVersion env st e.1) &&
        env.satisfies ((getPkgVersion env st e.1).getD "") e.2) ||
      (match jsGet st.packageJsonUpdates e.1 with
       | some u => !(u.version = "") && env.satisfies u.version e.2
       | none => false) ||
      (match extra with
       | some ex =>
         match jsGet ex e.1 with
         | some u =>
           !(u.version = "") &&
             (match env.cleanSemver u.version with
              | some c => env.satisfies c e.2
              | none => false)
         | none => false
       | none => false))

/-- The body of `filterPackageJsonUpdates` (lines 340-388), iterating over
`Object.values(packageJsonUpdates)` in declared order. -/
def filterPackageJsonUpdatesGo (env : MigEnv) (st : MigState)
    (packageName : String) (targetVersion : String) :
    List UpdateEntry → List UpdateEntry
  | [] => []
  | u :: rest =>
    match u.packages with
    | none => filterPackageJsonUpdatesGo env st packageName targetVersion rest
    | some pkgs =>
      if migLte u.version ((getPkgVersion env st packageName).getD "") ||
          migGt u.version targetVersion then
        filterPackageJsonUpdatesGo env st packageName targetVersion rest
      else
        let kept := pkgs.filter (fun e =>
          (match e.2.ifPackageInstalled with
           | some c => if c = "" then true else truthy (getPkgVersion env st c)
           | none => true) &&
          (e.2.alwaysAddToPackageJson || e.2.addToPackageJson.isSome ||
            truthy (getDep env.packageJson e.1) ||
            truthy (getDevDep env.packageJson e.1)) &&
          (match jsGet st.collectedVersions e.1 with
           | some cv => if cv = "" then true else migGt e.2.version cv
           | none => true))
        let newPkgs := kept.foldl (fun acc e =>
          objSet acc e.1
            { version := e.2.version,
              addToPackageJson :=
                if e.2.alwaysAddToPackageJson then some .dependencies
                else e.2.addToPackageJson }) []
        if newPkgs.isEmpty then
          filterPackageJsonUpdatesGo env st packageName targetVersion rest
        else
          { u with packages := some newPkgs } ::
            filterPackageJsonUpdatesGo env st packageName targetVersion rest

def filterPackageJsonUpdates (env : MigEnv) (st : MigState)
    (packageJsonUpdates : List (String × UpdateEntry))
    (packageName : String) (targetVersion : String) : List UpdateEntry :=
  filterPackageJsonUpdatesGo env st packageName targetVersion
    (packageJsonUpdates.map Prod.snd)

/-- The hard-coded legacy group used for `@nrwl/workspace` below
`14.0.0-beta.0` (lines 464-486). -/
def legacyNrwlPackageGroup : List (String × String) :=
  [("@nrwl/workspace", "*"), ("@nrwl/angular", "*"), ("@nrwl/cypress", "*"),
   ("@nrwl/devkit", "*"), ("@nrwl/eslint-plugin-nx", "*"),
   ("@nrwl/express", "*"), ("@nrwl/jest", "*"), ("@nrwl/linter", "*"),
   ("@nrwl/nest", "*"), ("@nrwl/next", "*"), ("@nrwl/node", "*"),
   ("@nrwl/nx-plugin", "*"), ("@nrwl/react", "*"), ("@nrwl/storybook", "*"),
   ("@nrwl/web", "*"), ("@nrwl/js", "*"), ("@nrwl/cli", "*"),
   ("@nrwl/nx-cloud", "latest"), ("@nrwl/react-native", "*"),
   ("@nrwl/detox", "*"), ("@nrwl/expo", "*")]

/-- `this.normalizePackageGroup(packageName, targetVersion, packageGroup)`
(lines 453-518).  Returns the normalized `{package, version}` list together
with the mutated override map (`??=` propagation of the parent's override
through `*`-versioned and bare-string members).  The `Invalid Version` error
arm is the raw `lt` throw on an unparsable target version. -/
def normalizePackageGroup (ov : List (String × String))
    (packageName : String) (targetVersion : String)
    (packageGroup : PackageGroup) :
    Except String (List (String × String) × List (String × String)) :=
  let pgE : Except String PackageGroup :=
    if packageName = "@nrwl/workspace" then
      match ltS targetVersion "14.0.0-beta.0" with
      | none => .error "Invalid Version"
      | some true => .ok (PackageGroup.map legacyNrwlPackageGroup)
      | some false => .ok packageGroup
    else .ok packageGroup
  match pgE with
  | .error e => .error e
  | .ok pg =>
  match pg with
  | .undef => .ok ([], ov)
  | .map entries =>
    .ok (entries.foldl (fun s e =>
      let ov' :=
        if truthy (jsGet s.2 packageName) && e.2 = "*" then
          objSetIfAbsent s.2 e.1 ((jsGet s.2 packageName).getD "")
        else s.2
      (s.1 ++ [(e.1, e.2)], ov')) ([], ov))
  | .arr elems =>
    .ok (elems.foldl (fun s el =>
      let ov' :=
        if truthy (jsGet s.2 packageName) then
          match el with
          | .str p => objSetIfAbsent s.2 p ((jsGet s.2 packageName).getD "")
          | .obj p v =>
            if v = "*" then
              objSetIfAbsent s.2 p ((jsGet s.2 packageName).getD "")
            else s.2
        else s.2
      let entry := match el with
        | .str p => (p, targetVersion)
        | .obj p v => (p, v)
      (s.1 ++ [entry], ov')) ([], ov))

/-- `setPackageGroupAsPackageJsonUpdate` (lines 529-545): splice the
synthesized `"<version>--PackageGroup"` pseudo entry into the manifest's
updates. -/
def setPackageGroupAsPackageJsonUpdate
    (packageGroup : List (String × String)) (targetVersion : String)
    (updates0 : List (String × UpdateEntry)) :
    List (String × UpdateEntry) :=
  objSet updates0 (targetVersion ++ "--PackageGroup")
    { version := targetVersion,
      packages := some (packageGroup.foldl (fun acc pc =>
        objSet acc pc.1
          { version := pc.2, alwaysAddToPackageJson := false }) []) }

/-- `this.getPackageJsonUpdatesFromMigrationConfig` (lines 297-338). -/
def getPackageJsonUpdatesFromMigrationConfig (env : MigEnv) (st : MigState)
    (packageName : String) (targetVersion : String)
    (migrationConfig : MigConfig) :
    Except String ((List UpdateEntry × List String) × MigState) :=
  match normalizePackageGroup st.installedPkgVersionOverrides packageName
      targetVersion migrationConfig.packageGroup with
  | .error e => .error e
  | .ok (packageGroup, ov') =>
    let st1 := { st with installedPkgVersionOverrides := ov' }
    let packageGroupOrder := packageGroup.map Prod.fst
    let updatesOpt : Option (List (String × UpdateEntry)) :=
      if packageGroup.isEmpty then migrationConfig.packageJsonUpdates
      else
        some (setPackageGroupAsPackageJsonUpdate packageGroup targetVersion
          (migrationConfig.packageJsonUpdates.getD []))
    match updatesOpt with
    | none => .ok (([], packageGroupOrder), st1)
    | some upds =>
      if truthy (getPkgVersion env st1 packageName) = false then
        .ok (([], packageGroupOrder), st1)
      else
        .ok ((filterPackageJsonUpdates env st1 upds packageName
          targetVersion, packageGroupOrder), st1)

/-- A "check group" returned to the outer walker when an update entry is
gated by `requires` or an interactive `x-prompt`. -/
structure CheckGroup where
  package : String
  updates : List UpdateEntry
deriving DecidableEq

/-- Result of a planner step: success with the threaded state, a thrown
error, or fuel exhaustion (only the last marks non-termination). -/
inductive PRes (α : Type) where
  | ok (st : MigState) (val : α)
  | thrown (msg : String)
  | nofuel
deriving DecidableEq

/-- JS object spread `{...m, ...c}`. -/
def mergePackages (m c : List (String × PkgUpdate)) :
    List (String × PkgUpdate) :=
  c.foldl (fun acc e => objSet acc e.1 e.2) m

/-- `packageGroupOrder.indexOf(pkg)` (missing → `-1`). -/
def groupIdx (order : List String) (p : String) : Int :=
  match order.findIdx? (fun q => q = p) with
  | some i => (i : Int)
  | none => -1

def insertByGroupIdx (order : List String) (g : CheckGroup) :
    List CheckGroup → List CheckGroup
  | [] => [g]
  | h :: t =>
    if groupIdx order g.package ≤ groupIdx order h.package then g :: h :: t
    else h :: insertByGroupIdx order g t

/-- The stable `.sort((a, b) => order.indexOf(a.package) -
order.indexOf(b.package))` of the source (ES2019 sorts are stable; for this
consistent comparator the result is the unique stable sorted permutation). -/
def sortByGroupOrder (order : List String) :
    List CheckGroup → List CheckGroup
  | [] => []
  | x :: rest => insertByGroupIdx order x (sortByGroupOrder order rest)

/-- The fetcher oracle: `fetch(pkg, version)`. -/
def fetchConfig (env : MigEnv) (p v : String) : Option MigConfig :=
  (env.fetch.find? (fun e => e.1.1 = p && e.1.2 = v)).map Prod.snd

/-- `runPackageJsonUpdatesConfirmationPrompt`: `true` without prompting when
the message is falsy, else the injected prompt driver's answer. -/
def promptAccepted (env : MigEnv) : Option String → Bool
  | none => true
  | some m => if m = "" then true else env.confirm m

/-- The `packagesToCheck` inner loop of `buildPackageJsonUpdates`
(lines 184-197): walk the group's update entries in declared order, merging
the `packages` of each entry whose `requires` is met against the in-flight
map and whose prompt (if interactive) is confirmed. -/
def collectFilteredUpdates (env : MigEnv) (st : MigState) :
    List UpdateEntry → List (String × PkgUpdate) →
    List (String × PkgUpdate)
  | [], acc => acc
  | u :: rest, acc =>
    let acc' :=
      if areRequirementsMet env st u.requires (some acc) &&
          (!env.interactive || promptAccepted env u.xPrompt) then
        mergePackages acc (u.packages.getD [])
      else acc
    collectFilteredUpdates env st rest acc'

mutual

/-- `this.populatePackageJsonUpdatesAndGetPackagesToCheck(targetPackage,
target)` (lines 207-295): resolve the `to` override, stop (recording the
target as-is) when the package is not installed, fetch, prune via
`collectedVersions` (the raw `gte` throw is the `Invalid Version` arm),
record the resolved version and continue in
`populateFromMigrationConfig`. -/
def populatePackageJsonUpdatesAndGetPackagesToCheck (fuel : Nat)
    (env : MigEnv) (targetPackage : String) (target : PkgUpdate)
    (st : MigState) : PRes (List CheckGroup) :=
  match fuel with
  | 0 => .nofuel
  | f + 1 =>
    let targetVersion :=
      if truthy (jsGet env.toPins targetPackage) then
        (jsGet env.toPins targetPackage).getD ""
      else target.version
    if truthy (getPkgVersion env st targetPackage) = false then
      .ok (addPackageJsonUpdate st targetPackage
        { version := target.version,
          addToPackageJson := target.addToPackageJson }) []
    else
      match fetchConfig env targetPackage targetVersion with
      | none =>
        .thrown ("No matching version for " ++ targetPackage ++ "@" ++
          targetVersion)
      | some migrationConfig =>
        let resolvedVersion := migrationConfig.version
        let stored := jsGet st.collectedVersions targetPackage
        if truthy stored then
          match gteS (stored.getD "") resolvedVersion with
          | none => .thrown "Invalid Version"
          | some true => .ok st []
          | some false =>
            populateFromMigrationConfig f env targetPackage
              target.addToPackageJson resolvedVersion migrationConfig
              { st with collectedVersions :=
                  objSet st.collectedVersions targetPackage resolvedVersion }
        else
          populateFromMigrationConfig f env targetPackage
            target.addToPackageJson resolvedVersion migrationConfig
            { st with collectedVersions :=
                objSet st.collectedVersions targetPackage resolvedVersion }

/-- Lines 251-294 of the same method, after `collectedVersions` is set:
filter the manifest's updates, record the package's own update, hand gated
entries to the outer walker, otherwise merge and recurse into every proposed
package, sorting the collected groups by `packageGroupOrder`. -/
def populateFromMigrationConfig (fuel : Nat) (env : MigEnv)
    (targetPackage : String) (targetAddToPackageJson : Option Sect)
    (resolvedVersion : String) (migrationConfig : MigConfig)
    (st : MigState) : PRes (List CheckGroup) :=
  match fuel with
  | 0 => .nofuel
  | f + 1 =>
    match getPackageJsonUpdatesFromMigrationConfig env st targetPackage
        resolvedVersion migrationConfig with
    | .error e => .thrown e
    | .ok ((packageJsonUpdates, packageGroupOrder), st2) =>
      let st3 := addPackageJsonUpdate st2 targetPackage
        { version := resolvedVersion,
          addToPackageJson := targetAddToPackageJson }
      let shouldCheckUpdates := packageJsonUpdates.any (fun u =>
        (env.interactive && truthy u.xPrompt) || !u.requires.isEmpty)
      if shouldCheckUpdates then
        .ok st3 [{ package := targetPackage, updates := packageJsonUpdates }]
      else
        let packageUpdatesToApply := packageJsonUpdates.foldl
          (fun m c => mergePackages m (c.packages.getD [])) []
        match populateChildren f env packageUpdatesToApply st3 with
        | .ok st4 results =>
          .ok st4 (sortByGroupOrder packageGroupOrder
            ((results.filter (fun l => !l.isEmpty)).flatten))
        | .thrown m => .thrown m
        | .nofuel => .nofuel

/-- The sequentialized `Promise.all` over the proposed packages. -/
def populateChildren (fuel : Nat) (env : MigEnv)
    (pending : List (String × PkgUpdate)) (st : MigState) :
    PRes (List (List CheckGroup)) :=
  match fuel with
  | 0 => .nofuel
  | f + 1 =>
    match pending with
    | [] => .ok st []
    | c :: rest =>
      match populatePackageJsonUpdatesAndGetPackagesToCheck f env c.1 c.2
          st with
      | .ok st' gs =>
        match populateChildren f env rest st' with
        | .ok st'' gss => .ok st'' (gs :: gss)
        | .thrown m => .thrown m
        | .nofuel => .nofuel
      | .thrown m => .thrown m
      | .nofuel => .nofuel

end

mutual

/-- `this.buildPackageJsonUpdates(targetPackage, target)` (lines 174-205):
populate, then walk every returned check group. -/
def buildPackageJsonUpdates (fuel : Nat) (env : MigEnv)
    (targetPackage : String) (target : PkgUpdate) (st : MigState) :
    PRes Unit :=
  match fuel with
  | 0 => .nofuel
  | f + 1 =>
    match populatePackageJsonUpdatesAndGetPackagesToCheck f env
        targetPackage target st with
    | .ok st' packagesToCheck => buildCheckGroups f env packagesToCheck st'
    | .thrown m => .thrown m
    | .nofuel => .nofuel

def buildCheckGroups (fuel : Nat) (env : MigEnv)
    (groups : List CheckGroup) (st : MigState) : PRes Unit :=
  match fuel with
  | 0 => .nofuel
  | f + 1 =>
    match groups with
    | [] => .ok st ()
    | g :: rest =>
      let filteredUpdates := collectFilteredUpdates env st g.updates []
      match buildChildren f env filteredUpdates st with
      | .ok st' _ => buildCheckGroups f env rest st'
      | .thrown m => .thrown m
      | .nofuel => .nofuel

/-- The sequentialized `Promise.all` over the filtered updates of one check
group. -/
def buildChildren (fuel : Nat) (env : MigEnv)
    (l : List (String × PkgUpdate)) (st : MigState) : PRes Unit :=
  match fuel with
  | 0 => .nofuel
  | f + 1 =>
    match l with
    | [] => .ok st ()
    | c :: rest =>
      match buildPackageJsonUpdates f env c.1 c.2 st with
      | .ok st' _ => buildChildren f env rest st'
      | .thrown m => .thrown m
      | .nofuel => .nofuel

end

/-! ## `createMigrateJson` (lines 144-172) -/

/-- A migration emitted into the final list: the generator's fields plus the
annotated `{package, name}`. -/
structure EmittedMigration where
  version : String
  requires : List (String × String)
  package : String
  name : String
deriving DecidableEq

/-- The per-package body of `createMigrateJson` (iterated over
`Object.keys(this.packageJsonUpdates)`): skip packages whose installed
version is `null`, re-fetch the planned version's manifest and keep each
generator with `installed < g.version ≤ planned` whose `requires` is met
against the final plan state. -/
def createMigrateJsonHere (env : MigEnv) (st : MigState)
    (packageName : String) : Except String (List EmittedMigration) :=
  match getPkgVersion env st packageName with
  | none => .ok []
  | some currentVersion =>
    match jsGet st.packageJsonUpdates packageName with
    | none => .error "TypeError: cannot destructure version"
    | some u =>
      match fetchConfig env packageName u.version with
      | none =>
        .error ("No matching version for " ++ packageName ++ "@" ++
          u.version)
      | some cfg =>
        match cfg.generators with
        | none => .ok []
        | some generators =>
          .ok ((generators.filter (fun e =>
            !(e.2.version = "") && migGt e.2.version currentVersion &&
              migLte e.2.version u.version &&
              areRequirementsMet env st e.2.requires none)).map
            (fun e =>
              { version := e.2.version, requires := e.2.requires,
                package := packageName, name := e.1 }))

def createMigrateJsonGo (env : MigEnv) (st : MigState) :
    List String → Except String (List EmittedMigration)
  | [] => .ok []
  | packageName :: rest =>
    match createMigrateJsonHere env st packageName with
    | .error e => .error e
    | .ok here =>
      match createMigrateJsonGo env st rest with
      | .error e => .error e
      | .ok restL => .ok (here ++ restL)

def createMigrateJson (env : MigEnv) (st : MigState) :
    Except String (List EmittedMigration) :=
  createMigrateJsonGo env st (st.packageJsonUpdates.map Prod.fst)

/-! ## The migration Fetcher (lines 700-893)

`createFetcher` resolves a `(package, versionOrTag)` request by consulting
the registry first and falling back to a temporary install.  The registry
client, tarball extraction and the package-manager install are external
collaborators, modelled as the `FetchEnv` oracles (a `none` result models the
corresponding failure/rejection).  The promise caches coalesce concurrent
requests; with pure oracles they do not change any result, so they are not
modelled. -/

/-- `readNxMigrateConfig` output relevant here: the declared migrations file
path (if any) and the package group. -/
structure NxMigrationsCfg where
  migrations : Option String := none
  packageGroup : PackageGroup := .undef
deriving DecidableEq

/-- A parsed `MigrationsJson` file (as read from a tarball or an installed
package), before the `schematics` rename. -/
structure MigrationsJsonFile where
  packageJsonUpdates : Option (List (String × UpdateEntry)) := none
  generators : Option (List (String × MigGenerator)) := none
  schematics : Option (List (String × MigGenerator)) := none
deriving DecidableEq

/-- Outcome of `readPackageMigrationConfig` plus the optional
`readJsonFile(migrationsFilePath)` on the temp-install path. -/
structure InstallOutcome where
  migrations : Option MigrationsJsonFile := none
  packageGroup : PackageGroup := .undef
  version : String
deriving DecidableEq

structure FetchEnv where
  resolveVersion : String → String → Option String
  viewConfig : String → String → Option NxMigrationsCfg
  readTarballMigrations : String → String → String → Option MigrationsJsonFile
  installPackage : String → String → Option InstallOutcome

/-- The JS spread `{ ...migrations, packageGroup, version }`: later keys
override the spread-in ones. -/
def spreadMigrations (m : Option MigrationsJsonFile) (pg : PackageGroup)
    (v : String) : MigConfig :=
  { version := v,
    packageJsonUpdates := m.bind (fun x => x.packageJsonUpdates),
    generators := m.bind (fun x => x.generators),
    schematics := m.bind (fun x => x.schematics),
    packageGroup := pg }

/-- `downloadPackageMigrationsFromRegistry` (lines 827-859): pack the
package, extract and read the declared migrations file; any failure in that
block is caught and rethrown as the structured missing-migrations-file
error.  The caller guards that the declared path is truthy. -/
def downloadPackageMigrationsFromRegistry (env : FetchEnv)
    (packageName packageVersion : String)
    (migrationsConfig : NxMigrationsCfg) : Except String MigConfig :=
  let migrationsFilePath := migrationsConfig.migrations.getD ""
  match env.readTarballMigrations packageName packageVersion
      migrationsFilePath with
  | some migrations =>
    .ok (spreadMigrations (some migrations) migrationsConfig.packageGroup
      packageVersion)
  | none =>
    .error ("Failed to find migrations file \"" ++ migrationsFilePath ++
      "\" in package \"" ++ packageName ++ "@" ++ packageVersion ++ "\".")

/-- `getPackageMigrationsUsingRegistry` (lines 776-808). -/
def getPackageMigrationsUsingRegistry (env : FetchEnv)
    (packageName packageVersion : String) : Except String MigConfig :=
  match env.viewConfig packageName packageVersion with
  | none => .ok { version := packageVersion }
  | some migrationsConfig =>
    if truthy migrationsConfig.migrations = false then
      .ok { version := packageVersion,
            packageGroup := migrationsConfig.packageGroup }
    else
      downloadPackageMigrationsFromRegistry env packageName packageVersion
        migrationsConfig

/-- `getPackageMigrationsUsingInstall` (lines 861-893). -/
def getPackageMigrationsUsingInstall (env : FetchEnv)
    (packageName packageVersion : String) : Except String MigConfig :=
  match env.installPackage packageName packageVersion with
  | some r => .ok (spreadMigrations r.migrations r.packageGroup r.version)
  | none =>
    .error ("Install failed for " ++ packageName ++ "@" ++ packageVersion)

/-- `fetchMigrations` (lines 707-740): resolve the concrete version and ask
the registry; ANY failure in the registry path (resolution, metadata,
tarball, missing migrations file) is caught and the install-based path is
used instead. -/
def fetchMigrations (env : FetchEnv) (packageName packageVersion : String) :
    Except String MigConfig :=
  let registryResult :=
    match env.resolveVersion packageName packageVersion with
    | none =>
      Except.error ("No matching version for " ++ packageName ++ "@" ++
        packageVersion)
    | some resolvedVersion =>
      getPackageMigrationsUsingRegistry env packageName resolvedVersion
  match registryResult with
  | .ok result => .ok result
  | .error _ => getPackageMigrationsUsingInstall env packageName
      packageVersion

/-- The post-processing of `nxMigrateFetcher`: rename a legacy `schematics`
table to `generators`. -/
def renameSchematics (result : MigConfig) : MigConfig :=
  match result.schematics with
  | some s => { result with generators := some s, schematics := none }
  | none => result

/-- `nxMigrateFetcher` (lines 742-771), caches aside: fetch, then rename
`schematics` to `generators`. -/
def nxMigrateFetcher (env : FetchEnv) (packageName packageVersion : String) :
    Except String MigConfig :=
  (fetchMigrations env packageName packageVersion).map renameSchematics

/-! ## The coverage measure for the cycle-termination argument

`collectedVersions` blocks the traversal from re-entering a package at a
resolved version that is not strictly above the stored one.  `covB st p v`
says re-entry of `p` at resolved version `v` can NOT pass the guard (either
it returns empty or the raw `gte` throws); `notCovCount` counts the oracle
entries still able to pass.  Passing the guard is exactly flipping the
fetched entry from uncovered to covered, so the count strictly decreases. -/

def covB (st : MigState) (p v : String) : Bool :=
  match jsGet st.collectedVersions p with
  | none => false
  | some w => !(w = "") && !(gteS w v = some false)

def notCovCount (env : MigEnv) (st : MigState) : Nat :=
  (env.fetch.filter (fun e => !(covB st e.1.1 e.2.version))).length

def covPres (st st' : MigState) : Prop :=
  ∀ p v, covB st p v = true → covB st' p v = true

/-! ## Concrete instances used by the claim witnesses -/

/-- A one-package environment whose manifest declares two generators, one in
range and one above the planned version. -/
def migEnvW : MigEnv :=
  { packageJson := { dependencies := some [("a", "1.0.0")] }
    installed := fun p => if p = "a" then some "1.0.0" else none
    satisfies := fun _ _ => true
    cleanSemver := fun v => some v
    confirm := fun _ => true
    toPins := []
    interactive := false
    fetch := [(("a", "2.0.0"),
      { version := "2.0.0"
        generators := some [("m1", { version := "1.5.0" }),
          ("m2", { version := "2.5.0" })] })] }

/-- The plan state after planning `a` to 2.0.0. -/
def migStateW : MigState :=
  { packageJsonUpdates := [("a", { version := "2.0.0" })] }

/-- Two packages whose package groups reference each other, as in the
cycle-termination scenario. -/
def migEnvCyclic : MigEnv :=
  { packageJson := { dependencies := some [("a", "1.0.0"), ("b", "1.0.0")] }
    installed := fun p => if p = "a" ∨ p = "b" then some "1.0.0" else none
    satisfies := fun _ _ => true
    cleanSemver := fun v => some v
    confirm := fun _ => true
    toPins := []
    interactive := false
    fetch := [(("a", "2.0.0"),
        { version := "2.0.0", packageGroup := .arr [.str "b"] }),
      (("b", "2.0.0"),
        { version := "2.0.0", packageGroup := .arr [.str "a"] })] }

/-- An environment where `p` is not installed but pinned by `to`. -/
def migEnvPin : MigEnv :=
  { packageJson := {}
    installed := fun _ => none
    satisfies := fun _ _ => true
    cleanSemver := fun v => some v
    confirm := fun _ => true
    toPins := [("p", "9.9.9")]
    interactive := false
    fetch := [] }

/-- A fetcher environment whose registry declares a migrations file that the
packed tarball does not contain, while the temp-install path succeeds. -/
def fetchEnvX : FetchEnv :=
  { resolveVersion := fun _ v => some v
    viewConfig := fun _ _ => some { migrations := some "migrations.json" }
    readTarballMigrations := fun _ _ _ => none
    installPackage := fun _ _ => some { version := "9.9.9" } }

/-! # Lemma zone

Everything below is proof infrastructure and the claim theorems; the
embedding ends here. -/

/-! ## Ordering facts about the semver comparator -/

theorem natCmp_eq_iff {a b : Nat} : natCmp a b = .eq ↔ a = b := by
  unfold natCmp
  split <;> rename_i h
  · exact iff_of_false (by decide) (by omega)
  · split <;> rename_i h2
    · exact iff_of_false (by decide) (by omega)
    · exact iff_of_true rfl (by omega)

theorem natCmp_lt_iff {a b : Nat} : natCmp a b = .lt ↔ a < b := by
  unfold natCmp
  split <;> rename_i h
  · exact iff_of_true rfl h
  · split <;> rename_i h2
    · exact iff_of_false (by decide) (by omega)
    · exact iff_of_false (by decide) (by omega)

theorem natCmp_gt_iff {a b : Nat} : natCmp a b = .gt ↔ b < a := by
  unfold natCmp
  split <;> rename_i h
  · exact iff_of_false (by decide) (by omega)
  · split <;> rename_i h2
    · exact iff_of_true rfl h2
    · exact iff_of_false (by decide) (by omega)

theorem charCmp_eq_iff {a b : Char} : charCmp a b = .eq ↔ a = b := by
  unfold charCmp
  rw [natCmp_eq_iff]
  constructor
  · intro h
    apply Char.eq_of_val_eq
    unfold Char.toNat at h
    exact UInt32.toNat.inj h
  · intro h; rw [h]

theorem charCmp_gt_iff_lt {a b : Char} :
    charCmp a b = .gt ↔ charCmp b a = .lt := by
  unfold charCmp
  rw [natCmp_gt_iff, natCmp_lt_iff]

theorem charCmp_lt_trans {a b c : Char} (h1 : charCmp a b = .lt)
    (h2 : charCmp b c = .lt) : charCmp a c = .lt := by
  simp only [charCmp, natCmp_lt_iff] at *
  omega

theorem lexCmp_eq_iff {a b : List Char} : lexCmp a b = .eq ↔ a = b := by
  induction a generalizing b with
  | nil => cases b <;> simp [lexCmp]
  | cons x xs ih =>
    cases b with
    | nil => simp [lexCmp]
    | cons y ys =>
      simp only [lexCmp]
      cases h : charCmp x y with
      | eq =>
        have hxy := charCmp_eq_iff.mp h
        simp [hxy, ih]
      | lt => simp; intro h'; rw [h'] at h
              rw [charCmp_eq_iff.mpr rfl] at h; cases h
      | gt => simp; intro h'; rw [h'] at h
              rw [charCmp_eq_iff.mpr rfl] at h; cases h

theorem lexCmp_gt_iff_lt {a b : List Char} :
    lexCmp a b = .gt ↔ lexCmp b a = .lt := by
  induction a generalizing b with
  | nil => cases b <;> simp [lexCmp]
  | cons x xs ih =>
    cases b with
    | nil => simp [lexCmp]
    | cons y ys =>
      simp only [lexCmp]
      cases h : charCmp x y with
      | eq =>
        have hxy := charCmp_eq_iff.mp h
        subst hxy
        rw [charCmp_eq_iff.mpr rfl]
        exact ih
      | lt =>
        have : charCmp y x = .gt := by
          rw [charCmp_gt_iff_lt]; exact h
        rw [this]; simp
      | gt =>
        have : charCmp y x = .lt := charCmp_gt_iff_lt.mp h
        rw [this]; simp

theorem lexCmp_lt_trans {a b c : List Char} (h1 : lexCmp a b = .lt)
    (h2 : lexCmp b c = .lt) : lexCmp a c = .lt := by
  induction a generalizing b c with
  | nil =>
    cases c with
    | nil =>
      cases b with
      | nil => cases h1
      | cons y ys => cases h2
    | cons z zs => simp [lexCmp]
  | cons x xs ih =>
    cases b with
    | nil => cases h1
    | cons y ys =>
      cases c with
      | nil => cases h2
      | cons z zs =>
        simp only [lexCmp] at h1 h2 ⊢
        cases hxy : charCmp x y with
        | eq =>
          have := charCmp_eq_iff.mp hxy; subst this
          rw [hxy] at h1
          cases hyz : charCmp x z with
          | eq =>
            have := charCmp_eq_iff.mp hyz; subst this
            rw [hyz] at h2
            exact ih h1 h2
          | lt => rfl
          | gt => rw [hyz] at h2; cases h2
        | lt =>
          cases hyz : charCmp y z with
          | eq =>
            have := charCmp_eq_iff.mp hyz; subst this
            rw [hxy]
          | lt => rw [charCmp_lt_trans hxy hyz]
          | gt => rw [hyz] at h2; cases h2
        | gt => rw [hxy] at h1; cases h1

theorem strCmp_eq_iff {a b : String} : strCmp a b = .eq ↔ a = b := by
  unfold strCmp
  rw [lexCmp_eq_iff]
  constructor
  · intro h
    cases a with
    | mk da =>
      cases b with
      | mk db => exact congrArg String.mk h
  · intro h; rw [h]

theorem strCmp_gt_iff_lt {a b : String} :
    strCmp a b = .gt ↔ strCmp b a = .lt := lexCmp_gt_iff_lt

theorem strCmp_lt_trans {a b c : String} (h1 : strCmp a b = .lt)
    (h2 : strCmp b c = .lt) : strCmp a c = .lt := lexCmp_lt_trans h1 h2

theorem preIdCmp_eq_iff {a b : PreId} : preIdCmp a b = .eq ↔ a = b := by
  cases a <;> cases b <;> simp [preIdCmp, natCmp_eq_iff, strCmp_eq_iff]

theorem preIdCmp_gt_iff_lt {a b : PreId} :
    preIdCmp a b = .gt ↔ preIdCmp b a = .lt := by
  cases a <;> cases b <;>
    simp [preIdCmp, natCmp_gt_iff, natCmp_lt_iff, strCmp_gt_iff_lt]

theorem preIdCmp_lt_trans {a b c : PreId} (h1 : preIdCmp a b = .lt)
    (h2 : preIdCmp b c = .lt) : preIdCmp a c = .lt := by
  cases a <;> cases b <;> cases c <;>
    simp_all [preIdCmp, natCmp_lt_iff]
  · omega
  · exact strCmp_lt_trans h1 h2

theorem preListCmp_eq_iff {a b : List PreId} :
    preListCmp a b = .eq ↔ a = b := by
  induction a generalizing b with
  | nil => cases b <;> simp [preListCmp]
  | cons x xs ih =>
    cases b with
    | nil => simp [preListCmp]
    | cons y ys =>
      simp only [preListCmp]
      cases h : preIdCmp x y with
      | eq => have hxy := preIdCmp_eq_iff.mp h; simp [hxy, ih]
      | lt => simp; intro h'; rw [h'] at h
              rw [preIdCmp_eq_iff.mpr rfl] at h; cases h
      | gt => simp; intro h'; rw [h'] at h
              rw [preIdCmp_eq_iff.mpr rfl] at h; cases h

theorem preListCmp_gt_iff_lt {a b : List PreId} :
    preListCmp a b = .gt ↔ preListCmp b a = .lt := by
  induction a generalizing b with
  | nil => cases b <;> simp [preListCmp]
  | cons x xs ih =>
    cases b with
    | nil => simp [preListCmp]
    | cons y ys =>
      simp only [preListCmp]
      cases h : preIdCmp x y with
      | eq =>
        have hxy := preIdCmp_eq_iff.mp h; subst hxy
        rw [preIdCmp_eq_iff.mpr rfl]
        exact ih
      | lt =>
        have : preIdCmp y x = .gt := by rw [preIdCmp_gt_iff_lt]; exact h
        rw [this]; simp
      | gt =>
        have : preIdCmp y x = .lt := preIdCmp_gt_iff_lt.mp h
        rw [this]; simp

theorem preListCmp_lt_trans {a b c : List PreId} (h1 : preListCmp a b = .lt)
    (h2 : preListCmp b c = .lt) : preListCmp a c = .lt := by
  induction a generalizing b c with
  | nil =>
    cases c with
    | nil =>
      cases b with
      | nil => cases h1
      | cons y ys => cases h2
    | cons z zs => simp [preListCmp]
  | cons x xs ih =>
    cases b with
    | nil => cases h1
    | cons y ys =>
      cases c with
      | nil => cases h2
      | cons z zs =>
        simp only [preListCmp] at h1 h2 ⊢
        cases hxy : preIdCmp x y with
        | eq =>
          have := preIdCmp_eq_iff.mp hxy; subst this
          rw [hxy] at h1
          cases hyz : preIdCmp x z with
          | eq =>
            have := preIdCmp_eq_iff.mp hyz; subst this
            rw [hyz] at h2
            exact ih h1 h2
          | lt => rfl
          | gt => rw [hyz] at h2; cases h2
        | lt =>
          cases hyz : preIdCmp y z with
          | eq =>
            have := preIdCmp_eq_iff.mp hyz; subst this
            rw [hxy]
          | lt => rw [preIdCmp_lt_trans hxy hyz]
          | gt => rw [hyz] at h2; cases h2
        | gt => rw [hxy] at h1; cases h1

theorem preCmp_eq_iff {a b : List PreId} : preCmp a b = .eq ↔ a = b := by
  cases a <;> cases b <;> simp [preCmp, preListCmp_eq_iff]

theorem preCmp_gt_iff_lt {a b : List PreId} :
    preCmp a b = .gt ↔ preCmp b a = .lt := by
  cases a <;> cases b <;> simp [preCmp, preListCmp_gt_iff_lt]

theorem preCmp_lt_trans {a b c : List PreId} (h1 : preCmp a b = .lt)
    (h2 : preCmp b c = .lt) : preCmp a c = .lt := by
  cases a <;> cases b <;> cases c <;> simp_all [preCmp]
  exact preListCmp_lt_trans h1 h2

/-- `.eq` on the comparator pins down every compare-relevant component
(build metadata is ignored). -/
theorem semVerCmp_eq_key {a b : SemVer} :
    semVerCmp a b = .eq ↔
      a.major = b.major ∧ a.minor = b.minor ∧ a.patch = b.patch ∧
        a.prerelease = b.prerelease := by
  unfold semVerCmp
  cases h1 : natCmp a.major b.major with
  | lt =>
    rw [natCmp_lt_iff] at h1
    exact iff_of_false (by simp) (by rintro ⟨hm, _⟩; omega)
  | gt =>
    rw [natCmp_gt_iff] at h1
    exact iff_of_false (by simp) (by rintro ⟨hm, _⟩; omega)
  | eq =>
    rw [natCmp_eq_iff] at h1
    cases h2 : natCmp a.minor b.minor with
    | lt =>
      rw [natCmp_lt_iff] at h2
      exact iff_of_false (by simp) (by rintro ⟨_, hm, _⟩; omega)
    | gt =>
      rw [natCmp_gt_iff] at h2
      exact iff_of_false (by simp) (by rintro ⟨_, hm, _⟩; omega)
    | eq =>
      rw [natCmp_eq_iff] at h2
      cases h3 : natCmp a.patch b.patch with
      | lt =>
        rw [natCmp_lt_iff] at h3
        exact iff_of_false (by simp) (by rintro ⟨_, _, hm, _⟩; omega)
      | gt =>
        rw [natCmp_gt_iff] at h3
        exact iff_of_false (by simp) (by rintro ⟨_, _, hm, _⟩; omega)
      | eq =>
        rw [natCmp_eq_iff] at h3
        simp [h1, h2, h3, preCmp_eq_iff]

theorem semVerCmp_self (a : SemVer) : semVerCmp a a = .eq :=
  semVerCmp_eq_key.mpr ⟨rfl, rfl, rfl, rfl⟩

theorem semVerCmp_gt_iff_lt {a b : SemVer} :
    semVerCmp a b = .gt ↔ semVerCmp b a = .lt := by
  simp only [semVerCmp]
  cases h1 : natCmp a.major b.major <;>
    cases h1' : natCmp b.major a.major <;>
    simp_all [natCmp_eq_iff, natCmp_lt_iff, natCmp_gt_iff] <;>
    try omega
  cases h2 : natCmp a.minor b.minor <;>
    cases h2' : natCmp b.minor a.minor <;>
    simp_all [natCmp_eq_iff, natCmp_lt_iff, natCmp_gt_iff] <;>
    try omega
  cases h3 : natCmp a.patch b.patch <;>
    cases h3' : natCmp b.patch a.patch <;>
    simp_all [natCmp_eq_iff, natCmp_lt_iff, natCmp_gt_iff,
      preCmp_gt_iff_lt] <;>
    omega

theorem semVerCmp_lt_trans {a b c : SemVer} (h1 : semVerCmp a b = .lt)
    (h2 : semVerCmp b c = .lt) : semVerCmp a c = .lt := by
  simp only [semVerCmp] at h1 h2 ⊢
  cases hab : natCmp a.major b.major <;> rw [hab] at h1 <;>
    cases hbc : natCmp b.major c.major <;> rw [hbc] at h2 <;>
    simp_all [natCmp_eq_iff, natCmp_lt_iff, natCmp_gt_iff] <;>
    try (rw [natCmp_lt_iff.mpr (by omega)]) <;> try rfl
  rw [natCmp_eq_iff.mpr (by omega)]
  cases hab2 : natCmp a.minor b.minor <;> rw [hab2] at h1 <;>
    cases hbc2 : natCmp b.minor c.minor <;> rw [hbc2] at h2 <;>
    simp_all [natCmp_eq_iff, natCmp_lt_iff, natCmp_gt_iff] <;>
    try (rw [natCmp_lt_iff.mpr (by omega)]) <;> try rfl
  rw [natCmp_eq_iff.mpr (by omega)]
  cases hab3 : natCmp a.patch b.patch <;> rw [hab3] at h1 <;>
    cases hbc3 : natCmp b.patch c.patch <;> rw [hbc3] at h2 <;>
    simp_all [natCmp_eq_iff, natCmp_lt_iff, natCmp_gt_iff] <;>
    try (rw [natCmp_lt_iff.mpr (by omega)]) <;> try rfl
  rw [natCmp_eq_iff.mpr (by omega)]
  exact preCmp_lt_trans h1 h2

/-! ## Facts about `normalizeVersion` and the Migrator comparators -/

theorem firstAboveZero_spec (cands : List String) :
    firstAboveZero cands = "0.0.0" ∨
      gtS (firstAboveZero cands) "0.0.0" = some true := by
  unfold firstAboveZero
  cases h : cands.find? (fun v => (gtS v "0.0.0").getD false) with
  | none => left; rfl
  | some c =>
    right
    have hp := List.find?_some h
    simp only [Option.getD_some]
    cases hg : gtS c "0.0.0" with
    | none => rw [hg] at hp; simp at hp
    | some b =>
      rw [hg] at hp
      simp only [Option.getD_some] at hp
      rw [hp]

/-- The normalizer returns either the literal `0.0.0` or a candidate that
parses strictly above `0.0.0`. -/
theorem normalizeVersion_spec (v : String) :
    normalizeVersion v = "0.0.0" ∨
      gtS (normalizeVersion v) "0.0.0" = some true :=
  firstAboveZero_spec _

/-- The normalizer output always parses. -/
theorem normalizeVersion_parses (v : String) :
    (parseSemVer (normalizeVersion v)).isSome := by
  rcases normalizeVersion_spec v with h | h
  · rw [h]; decide
  · unfold gtS cmpS at h
    cases hp : parseSemVer (normalizeVersion v) with
    | some _ => rfl
    | none => rw [hp] at h; simp at h

/-- Totality transfer: when the normalized strict comparison fails, the
normalized non-strict converse holds. -/
theorem migLte_of_not_migGt {a b : String} (h : migGt a b = false) :
    migLte a b = true := by
  unfold migGt at h
  unfold migLte
  obtain ⟨pa, hpa⟩ := Option.isSome_iff_exists.mp (normalizeVersion_parses a)
  obtain ⟨pb, hpb⟩ := Option.isSome_iff_exists.mp (normalizeVersion_parses b)
  unfold gtS cmpS at h
  unfold lteS cmpS
  rw [hpa, hpb] at h ⊢
  simp only [Option.map_some', Option.getD_some] at h ⊢
  simp only [decide_eq_false_iff_not] at h
  simp [h]

/-- Same-normalization inputs never count as a strict upgrade. -/
theorem migGt_of_norm_eq {a b : String}
    (h : normalizeVersion a = normalizeVersion b) : migGt a b = false := by
  unfold migGt gtS cmpS
  rw [h]
  cases hp : parseSemVer (normalizeVersion b) with
  | none => rfl
  | some p => simp [semVerCmp_self]

/-- A version whose normalization is the zero version is `≤` every
normalized version. -/
theorem migLte_of_norm_zero {a b : String}
    (h : normalizeVersion a = "0.0.0") : migLte a b = true := by
  unfold migLte lteS cmpS
  rw [h]
  obtain ⟨pb, hpb⟩ := Option.isSome_iff_exists.mp (normalizeVersion_parses b)
  rw [hpb]
  have hz : parseSemVer "0.0.0" = some ⟨0, 0, 0, [], []⟩ := by decide
  rw [hz]
  simp only [Option.map_some', Option.getD_some, decide_eq_true_eq]
  rcases normalizeVersion_spec b with h2 | h2
  · rw [h2] at hpb
    rw [hz] at hpb
    cases hpb
    rw [semVerCmp_self]
    decide
  · unfold gtS cmpS at h2
    rw [hpb, hz] at h2
    simp only [Option.map_some', Option.some_inj, decide_eq_true_eq] at h2
    have : semVerCmp ⟨0, 0, 0, [], []⟩ pb = .lt := semVerCmp_gt_iff_lt.mp h2
    rw [this]
    decide

/-- A strict upgrade over something implies being strictly above the zero
version after normalization. -/
theorem migGt_trans_norm_zero {a b c : String}
    (h : normalizeVersion c = "0.0.0") (hg : migGt a b = true) :
    migGt a c = true := by
  unfold migGt gtS cmpS at hg ⊢
  rw [h]
  obtain ⟨pa, hpa⟩ := Option.isSome_iff_exists.mp (normalizeVersion_parses a)
  obtain ⟨pb, hpb⟩ := Option.isSome_iff_exists.mp (normalizeVersion_parses b)
  rw [hpa, hpb] at hg
  have hz : parseSemVer "0.0.0" = some ⟨0, 0, 0, [], []⟩ := by decide
  rw [hpa, hz]
  simp only [Option.map_some', Option.getD_some, decide_eq_true_eq] at hg ⊢
  rcases normalizeVersion_spec b with h2 | h2
  · rw [h2, hz] at hpb
    cases hpb
    exact hg
  · unfold gtS cmpS at h2
    rw [hpb, hz] at h2
    simp only [Option.map_some', Option.some_inj, decide_eq_true_eq] at h2
    have hlt : semVerCmp ⟨0, 0, 0, [], []⟩ pb = .lt := semVerCmp_gt_iff_lt.mp h2
    have hba : semVerCmp pb pa = .lt := semVerCmp_gt_iff_lt.mp hg
    exact semVerCmp_gt_iff_lt.mpr (semVerCmp_lt_trans hlt hba)

/-! ## Facts about the raw `gte` used by the cycle guard -/

theorem gteS_self_not_false (v : String) : gteS v v ≠ some false := by
  unfold gteS cmpS
  cases hp : parseSemVer v with
  | none => simp
  | some p => simp [semVerCmp_self]

theorem gteS_false_parts {w v : String} (h : gteS w v = some false) :
    ∃ pw pv, parseSemVer w = some pw ∧ parseSemVer v = some pv ∧
      semVerCmp pw pv = .lt := by
  unfold gteS cmpS at h
  cases hw : parseSemVer w with
  | none => rw [hw] at h; simp at h
  | some pw =>
    cases hv : parseSemVer v with
    | none => rw [hw, hv] at h; simp at h
    | some pv =>
      rw [hw, hv] at h
      simp only [Option.map_some', Option.some_inj] at h
      refine ⟨pw, pv, rfl, rfl, ?_⟩
      simpa using h

/-- If `w < tv` (both parse) and `u` is blocked by stored `w` (the guard does
not pass, i.e. `gte w u` is not `some false`), then `u` stays blocked by the
larger stored `tv`. -/
theorem gteS_upgrade_preserves {w tv u : String}
    (hwtv : gteS w tv = some false) (hu : gteS w u ≠ some false) :
    gteS tv u ≠ some false := by
  obtain ⟨pw, ptv, hpw, hptv, hcmp⟩ := gteS_false_parts hwtv
  intro hcon
  obtain ⟨ptv2, pu, hptv2, hpu, hcmp2⟩ := gteS_false_parts hcon
  rw [hptv] at hptv2
  cases hptv2
  apply hu
  unfold gteS cmpS
  rw [hpw, hpu]
  simp only [Option.map_some', Option.some_inj]
  have : semVerCmp pw pu = .lt := semVerCmp_lt_trans hcmp hcmp2
  simp [this]

/-! ## General list helper lemmas -/

theorem find?_eq_head?_filter {α : Type} (p : α → Bool) (l : List α) :
    (l.filter p).head? = l.find? p := by
  induction l with
  | nil => rfl
  | cons a t ih => by_cases h : p a <;> simp [List.filter_cons, h, ih]

theorem headD_eq_getElem?_getD (l : List String) (d : String) :
    l.headD d = (l[0]?).getD d := by
  cases l <;> simp

theorem head?_drop_one (l : List String) : (l.drop 1).head? = l[1]? := by
  cases l with
  | nil => simp
  | cons a t => cases t <;> simp

/-! # Claim theorems -/

/-! ## C7 — the normalizer -/

/-- C7 counterexample: the claim describes a split at the FIRST dash, but
the JS destructuring keeps only the first two dash-segments, so on
`1.0.0-alpha-2` the code returns `1.0.0-alpha` while the claimed algorithm
returns `1.0.0-alpha-2` (both parse above 0.0.0, so the first candidate is
taken on each side). -/
theorem c7_normalizeVersion_counterexample :
    normalizeVersion "1.0.0-alpha-2" = "1.0.0-alpha" ∧
      normalizeVersionFirstDashSplit "1.0.0-alpha-2" = "1.0.0-alpha-2" ∧
      normalizeVersion "1.0.0-alpha-2" ≠
        normalizeVersionFirstDashSplit "1.0.0-alpha-2" := by
  refine ⟨by decide, by decide, by decide⟩

/-- C7 (amended): `normalizeVersion(v)` splits `v` on `-` keeping the first
two segments as the semver part and the (first-segment) prerelease part,
splits the semver part on `.` into `major.minor.patch` defaulting each
missing part to 0, builds the four candidates full, semver-only, x.y.0 and
x.0.0 in that order, and returns the first candidate that parses as a semver
strictly greater than 0.0.0; if none does, it returns `0.0.0` and never
throws on a malformed string (the equation below is total). -/
theorem c7_normalizeVersion_amended (v : String) :
    normalizeVersion v = normalizeVersionSpecAmended v := by
  simp only [normalizeVersion, normalizeVersionSpecAmended, firstAboveZero,
    headD_eq_getElem?_getD, head?_drop_one, find?_eq_head?_filter]

/-! ## C8 — bare-version parsing -/

/-- C8: a `packageAndVersion` input without `@` that is a tag, a valid
semver, or a numeric shorthand is treated as a bare version; the target
package is `nx` when the input is a tag or its normalized version is
`≥ 14.0.0-beta.0`, and the legacy `@nrwl/workspace` otherwise, with the
normalized (tag-preserving) version as the target version. -/
theorem c8_parseTargetPackageAndVersion_bare (s : String)
    (hAt : hasAtSign s = false)
    (hKind : s = "latest" ∨ s = "next" ∨ semverValid s = true ∨
      numericShorthand s = true) :
    parseTargetPackageAndVersion s =
      .ok (if (s = "latest" ∨ s = "next") ∨
            gteS (normalizeVersionWithTagCheck s) "14.0.0-beta.0" = some true
          then "nx" else "@nrwl/workspace",
        normalizeVersionWithTagCheck s) := by
  have hne : ¬(s = "") := by
    rintro rfl
    rcases hKind with h | h | h | h
    · exact absurd h (by decide)
    · exact absurd h (by decide)
    · exact absurd h (by decide)
    · exact absurd h (by decide)
  unfold parseTargetPackageAndVersion
  rw [if_neg hne, hAt]
  simp only [Bool.false_eq_true, if_false]
  rw [if_pos hKind]
  by_cases htag : s = "latest" ∨ s = "next"
  · rw [if_pos htag, if_pos (Or.inl htag)]
  · rw [if_neg htag]
    have htv : normalizeVersionWithTagCheck s = normalizeVersion s := by
      unfold normalizeVersionWithTagCheck
      rw [if_neg htag]
    rw [htv]
    obtain ⟨pt, hpt⟩ :=
      Option.isSome_iff_exists.mp (normalizeVersion_parses s)
    have hbeta : parseSemVer "14.0.0-beta.0" =
        some ⟨14, 0, 0, [.str "beta", .num 0], []⟩ := by decide
    cases hc : semVerCmp pt ⟨14, 0, 0, [.str "beta", .num 0], []⟩ with
    | lt =>
      unfold ltS gteS cmpS
      rw [hpt, hbeta]
      simp [hc, htag]
    | eq =>
      unfold ltS gteS cmpS
      rw [hpt, hbeta]
      simp [hc, htag]
    | gt =>
      unfold ltS gteS cmpS
      rw [hpt, hbeta]
      simp [hc, htag]

/-- C8 witness: the three concrete scenarios of the claim. -/
theorem c8_witness :
    parseTargetPackageAndVersion "13.9.0" =
        .ok ("@nrwl/workspace", "13.9.0") ∧
      parseTargetPackageAndVersion "16.0.0" = .ok ("nx", "16.0.0") ∧
      parseTargetPackageAndVersion "latest" = .ok ("nx", "latest") := by
  have h1 := c8_parseTargetPackageAndVersion_bare "13.9.0" (by decide)
    (Or.inr (Or.inr (Or.inl (by decide))))
  have h2 := c8_parseTargetPackageAndVersion_bare "16.0.0" (by decide)
    (Or.inr (Or.inr (Or.inl (by decide))))
  have h3 := c8_parseTargetPackageAndVersion_bare "latest" (by decide)
    (Or.inl (by decide))
  refine ⟨?_, ?_, ?_⟩
  · rw [h1, if_neg (by decide)]
    rfl
  · rw [h2, if_pos (by decide)]
    rfl
  · rw [h3, if_pos (Or.inl (Or.inl rfl))]
    rfl

/-! ## Association-list lemmas -/

theorem find?_map_objSetFn_ne {α : Type} (k q : String) (v : α)
    (hq : ¬(q = k)) (l : List (String × α)) :
    (l.map (fun e => if e.1 = k then (k, v) else e)).find?
        (fun e => e.1 = q) =
      l.find? (fun e => e.1 = q) := by
  have hkq : ¬(k = q) := fun hh => hq hh.symm
  induction l with
  | nil => rfl
  | cons a t ih =>
    simp only [List.map_cons]
    by_cases hak : a.1 = k
    · rw [if_pos hak]
      rw [List.find?_cons_of_neg _ (by simp [hkq]),
        List.find?_cons_of_neg _ (by simp [hak, hkq])]
      exact ih
    · rw [if_neg hak]
      by_cases haq : a.1 = q
      · rw [List.find?_cons_of_pos _ (by simp [haq]),
          List.find?_cons_of_pos _ (by simp [haq])]
      · rw [List.find?_cons_of_neg _ (by simp [haq]),
          List.find?_cons_of_neg _ (by simp [haq])]
        exact ih

theorem find?_append_single_ne {α : Type} (k q : String) (v : α)
    (hq : ¬(q = k)) (l : List (String × α)) :
    (l ++ [(k, v)]).find? (fun e => e.1 = q) =
      l.find? (fun e => e.1 = q) := by
  have hkq : ¬(k = q) := fun hh => hq hh.symm
  induction l with
  | nil => simp [List.find?, hkq]
  | cons a t ih =>
    simp only [List.cons_append]
    by_cases haq : a.1 = q
    · rw [List.find?_cons_of_pos _ (by simp [haq]),
        List.find?_cons_of_pos _ (by simp [haq])]
    · rw [List.find?_cons_of_neg _ (by simp [haq]),
        List.find?_cons_of_neg _ (by simp [haq])]
      exact ih

theorem jsGet_objSet_ne {α : Type} (l : List (String × α)) (k q : String)
    (v : α) (hq : ¬(q = k)) : jsGet (objSet l k v) q = jsGet l q := by
  unfold objSet jsGet
  split
  · rw [find?_map_objSetFn_ne k q v hq]
  · rw [find?_append_single_ne k q v hq]

theorem find?_map_objSetFn_self {α : Type} (k : String) (v : α)
    (l : List (String × α)) (h : l.any (fun e => e.1 = k) = true) :
    (l.map (fun e => if e.1 = k then (k, v) else e)).find?
        (fun e => e.1 = k) =
      some (k, v) := by
  induction l with
  | nil => simp at h
  | cons a t ih =>
    simp only [List.map_cons]
    by_cases hak : a.1 = k
    · rw [if_pos hak]
      rw [List.find?_cons_of_pos _ (by simp)]
    · rw [if_neg hak]
      simp only [List.any_cons, Bool.or_eq_true, decide_eq_true_eq] at h
      rcases h with h | h
      · exact absurd h hak
      · rw [List.find?_cons_of_neg _ (by simp [hak])]
        exact ih h

theorem find?_append_single_self {α : Type} (k : String) (v : α)
    (l : List (String × α)) (h : l.any (fun e => e.1 = k) = false) :
    (l ++ [(k, v)]).find? (fun e => e.1 = k) = some (k, v) := by
  induction l with
  | nil => rw [List.nil_append, List.find?_cons_of_pos _ (by simp)]
  | cons a t ih =>
    simp only [List.any_cons, Bool.or_eq_false_iff, decide_eq_false_iff_not]
      at h
    simp only [List.cons_append]
    rw [List.find?_cons_of_neg _ (by simp [h.1])]
    exact ih h.2

theorem jsGet_objSet_self {α : Type} (l : List (String × α)) (k : String)
    (v : α) : jsGet (objSet l k v) k = some v := by
  unfold objSet jsGet
  split <;> rename_i h
  · rw [find?_map_objSetFn_self k v l h]
    rfl
  · rw [find?_append_single_self k v l (Bool.eq_false_iff.mpr h)]
    rfl

/-! ## More comparator facts -/

theorem semVerCmp_congr_left {a b : SemVer} (h : semVerCmp a b = .eq)
    (c : SemVer) : semVerCmp a c = semVerCmp b c := by
  obtain ⟨h1, h2, h3, h4⟩ := semVerCmp_eq_key.mp h
  unfold semVerCmp
  rw [h1, h2, h3, h4]

theorem semVerCmp_congr_right {b c : SemVer} (h : semVerCmp b c = .eq)
    (a : SemVer) : semVerCmp a b = semVerCmp a c := by
  obtain ⟨h1, h2, h3, h4⟩ := semVerCmp_eq_key.mp h
  unfold semVerCmp
  rw [h1, h2, h3, h4]

theorem migLte_refl (v : String) : migLte v v = true :=
  migLte_of_not_migGt (migGt_of_norm_eq rfl)

/-- `migGt a b` implies `migLte b a`. -/
theorem migLte_of_migGt_swap {a b : String} (h : migGt a b = true) :
    migLte b a = true := by
  unfold migGt gtS cmpS at h
  unfold migLte lteS cmpS
  obtain ⟨pa, hpa⟩ := Option.isSome_iff_exists.mp (normalizeVersion_parses a)
  obtain ⟨pb, hpb⟩ := Option.isSome_iff_exists.mp (normalizeVersion_parses b)
  rw [hpa, hpb] at h
  rw [hpb, hpa]
  simp only [Option.map_some', Option.getD_some, decide_eq_true_eq] at h
  simp only [Option.map_some', Option.getD_some]
  have : semVerCmp pb pa = .lt := semVerCmp_gt_iff_lt.mp h
  simp [this]

theorem migLte_trans {a b c : String} (h1 : migLte a b = true)
    (h2 : migLte b c = true) : migLte a c = true := by
  unfold migLte lteS cmpS at h1 h2 ⊢
  obtain ⟨pa, hpa⟩ := Option.isSome_iff_exists.mp (normalizeVersion_parses a)
  obtain ⟨pb, hpb⟩ := Option.isSome_iff_exists.mp (normalizeVersion_parses b)
  obtain ⟨pc, hpc⟩ := Option.isSome_iff_exists.mp (normalizeVersion_parses c)
  rw [hpa, hpb] at h1
  rw [hpb, hpc] at h2
  rw [hpa, hpc]
  simp only [Option.map_some', Option.getD_some, Bool.not_eq_eq_eq_not,
    Bool.not_true, decide_eq_false_iff_not] at h1 h2
  simp only [Option.map_some', Option.getD_some, Bool.not_eq_eq_eq_not,
    Bool.not_true, decide_eq_false_iff_not]
  intro hac
  cases hab : semVerCmp pa pb with
  | gt => exact h1 hab
  | eq => exact h2 (by rw [← semVerCmp_congr_left hab pc]; exact hac)
  | lt =>
    cases hbc : semVerCmp pb pc with
    | gt => exact h2 hbc
    | eq =>
      rw [semVerCmp_congr_right hbc pa] at hab
      rw [hac] at hab
      cases hab
    | lt =>
      have := semVerCmp_lt_trans hab hbc
      rw [hac] at this
      cases this

/-! ## C3 and C10 — `addPackageJsonUpdate` -/

theorem jsGet_addPackageJsonUpdate_self_none (st : MigState) (p : String)
    (u : PkgUpdate) (h : jsGet st.packageJsonUpdates p = none) :
    jsGet (addPackageJsonUpdate st p u).packageJsonUpdates p = some u := by
  unfold addPackageJsonUpdate
  simp only [h]
  exact jsGet_objSet_self _ _ _

theorem jsGet_addPackageJsonUpdate_self_some (st : MigState) (p : String)
    (u e : PkgUpdate) (h : jsGet st.packageJsonUpdates p = some e) :
    jsGet (addPackageJsonUpdate st p u).packageJsonUpdates p =
      some (if migGt u.version e.version then u else e) := by
  unfold addPackageJsonUpdate
  simp only [h]
  by_cases hg : migGt u.version e.version
  · rw [if_pos hg, if_pos hg]
    exact jsGet_objSet_self _ _ _
  · rw [if_neg hg, if_neg hg]
    exact h

theorem addPackageJsonUpdate_seq_inv (p : String) (us : List PkgUpdate) :
    ∀ (st : MigState) (w0 : PkgUpdate),
      jsGet st.packageJsonUpdates p = some w0 →
      ∃ w, jsGet ((us.foldl (fun s u => addPackageJsonUpdate s p u)
          st)).packageJsonUpdates p = some w ∧
        (w = w0 ∨ w ∈ us) ∧ migLte w0.version w.version = true ∧
        ∀ u ∈ us, migLte u.version w.version = true := by
  induction us with
  | nil =>
    intro st w0 h
    exact ⟨w0, h, Or.inl rfl, migLte_refl _, by simp⟩
  | cons u us ih =>
    intro st w0 h
    simp only [List.foldl_cons]
    have hstep := jsGet_addPackageJsonUpdate_self_some st p u w0 h
    by_cases hg : migGt u.version w0.version
    · rw [if_pos hg] at hstep
      obtain ⟨w, hw, hmem, hle, hall⟩ := ih _ u hstep
      refine ⟨w, hw, ?_, ?_, ?_⟩
      · rcases hmem with rfl | hm
        · exact Or.inr (List.mem_cons_self _ _)
        · exact Or.inr (List.mem_cons_of_mem _ hm)
      · exact migLte_trans (migLte_of_migGt_swap hg) hle
      · intro x hx
        rcases List.mem_cons.mp hx with rfl | hm
        · exact hle
        · exact hall x hm
    · rw [if_neg hg] at hstep
      obtain ⟨w, hw, hmem, hle, hall⟩ := ih _ w0 hstep
      refine ⟨w, hw, ?_, hle, ?_⟩
      · rcases hmem with rfl | hm
        · exact Or.inl rfl
        · exact Or.inr (List.mem_cons_of_mem _ hm)
      · intro x hx
        rcases List.mem_cons.mp hx with rfl | hm
        · exact migLte_trans
            (migLte_of_not_migGt (Bool.eq_false_iff.mpr hg)) hle
        · exact hall x hm

/-- C3: for every nonempty sequence of `addPackageJsonUpdate(p, u₁), …,
(p, uₙ)` starting from a state with no entry for `p`, the stored entry is
one of the `uᵢ` and its version is `≥` every `uᵢ.version` under
normalized-semver comparison (i.e. it is the maximum of `u₁.version …
uₙ.version`). -/
theorem c3_addPackageJsonUpdate_seq_max (st : MigState) (p : String)
    (us : List PkgUpdate) (hne : us ≠ [])
    (h0 : jsGet st.packageJsonUpdates p = none) :
    ∃ w, jsGet ((us.foldl (fun s u => addPackageJsonUpdate s p u)
        st)).packageJsonUpdates p = some w ∧
      w ∈ us ∧ ∀ u ∈ us, migLte u.version w.version = true := by
  cases us with
  | nil => exact absurd rfl hne
  | cons u us =>
    simp only [List.foldl_cons]
    have hstep := jsGet_addPackageJsonUpdate_self_none st p u h0
    obtain ⟨w, hw, hmem, hle, hall⟩ :=
      addPackageJsonUpdate_seq_inv p us _ u hstep
    refine ⟨w, hw, ?_, ?_⟩
    · rcases hmem with rfl | hm
      · exact List.mem_cons_self _ _
      · exact List.mem_cons_of_mem _ hm
    · intro x hx
      rcases List.mem_cons.mp hx with rfl | hm
      · exact hle
      · exact hall x hm

/-- C3 witness: a concrete three-update sequence whose maximum is the middle
update. -/
theorem c3_witness :
    ([⟨"1.0.0", none, false, none⟩, ⟨"3.0.0", some .dependencies, false,
        none⟩, ⟨"2.0.0", none, false, none⟩] : List PkgUpdate) ≠ [] ∧
      jsGet (MigState.packageJsonUpdates {}) "a" = none ∧
      ∃ w, jsGet (([⟨"1.0.0", none, false, none⟩, ⟨"3.0.0",
          some .dependencies, false, none⟩, ⟨"2.0.0", none, false,
          none⟩] : List PkgUpdate).foldl
            (fun s u => addPackageJsonUpdate s "a" u)
            {}).packageJsonUpdates "a" = some w ∧
        w ∈ ([⟨"1.0.0", none, false, none⟩, ⟨"3.0.0", some .dependencies,
          false, none⟩, ⟨"2.0.0", none, false, none⟩] : List PkgUpdate) ∧
        ∀ u ∈ ([⟨"1.0.0", none, false, none⟩, ⟨"3.0.0", some .dependencies,
          false, none⟩, ⟨"2.0.0", none, false, none⟩] : List PkgUpdate),
          migLte u.version w.version = true := by
  refine ⟨by decide, by decide, ?_⟩
  exact c3_addPackageJsonUpdate_seq_max {} "a" _ (by decide) (by decide)

/-- C10: `addPackageJsonUpdate` replaces an existing entry only for a
strictly greater normalized version; an update whose version normalizes to
the stored version leaves the state (including the stored entry and its
`addToPackageJson` flag) unchanged — on ties the earliest recorded update
wins. -/
theorem c10_addPackageJsonUpdate_tie (st : MigState) (p : String)
    (u u0 : PkgUpdate) (h : jsGet st.packageJsonUpdates p = some u0)
    (heq : normalizeVersion u.version = normalizeVersion u0.version) :
    addPackageJsonUpdate st p u = st := by
  unfold addPackageJsonUpdate
  simp only [h, migGt_of_norm_eq heq]
  simp

/-- C10 witness: a tie (`1.0` vs `1.0.0`, equal after normalization) with a
different `addToPackageJson` flag leaves the stored entry untouched. -/
theorem c10_witness :
    jsGet (MigState.packageJsonUpdates
        { packageJsonUpdates := [("a", ⟨"1.0.0", some .dependencies, false,
          none⟩)] }) "a" = some ⟨"1.0.0", some .dependencies, false, none⟩ ∧
      normalizeVersion "1.0" = normalizeVersion "1.0.0" ∧
      addPackageJsonUpdate
          { packageJsonUpdates := [("a", ⟨"1.0.0", some .dependencies, false,
            none⟩)] } "a" ⟨"1.0", none, false, none⟩ =
        { packageJsonUpdates := [("a", ⟨"1.0.0", some .dependencies, false,
          none⟩)] } := by
  refine ⟨by decide, by decide, ?_⟩
  exact c10_addPackageJsonUpdate_tie
    { packageJsonUpdates := [("a", ⟨"1.0.0", some .dependencies, false,
      none⟩)] } "a" ⟨"1.0", none, false, none⟩
    ⟨"1.0.0", some .dependencies, false, none⟩ (by decide) (by decide)

/-! ## C5 and C9 — the manifest rewriter -/

/-- Read one manifest section. -/
def sectGet (j : PackageJsonFile) (s : Sect) (p : String) : Option String :=
  match s with
  | .dependencies => getDep j p
  | .devDependencies => getDevDep j p

/-- One `updatePackageJson` iteration only touches its own key. -/
theorem updatePackageJsonStep_frame (json : PackageJsonFile) (p : String)
    (u : PkgUpdate) (q : String) (hq : ¬(q = p)) :
    getDep (updatePackageJsonStep json p u) q = getDep json q ∧
      getDevDep (updatePackageJsonStep json p u) q = getDevDep json q := by
  unfold updatePackageJsonStep
  by_cases hdev : truthy (getDevDep json p) = true
  · rw [if_pos hdev]
    refine ⟨rfl, ?_⟩
    unfold getDevDep
    cases json.devDependencies with
    | none => rfl
    | some l => simp [jsGet_objSet_ne l p q _ hq]
  · rw [if_neg hdev]
    by_cases hdep : truthy (getDep json p) = true
    · rw [if_pos hdep]
      refine ⟨?_, rfl⟩
      unfold getDep
      cases json.dependencies with
      | none => rfl
      | some l => simp [jsGet_objSet_ne l p q _ hq]
    · rw [if_neg hdep]
      cases hadd : u.addToPackageJson with
      | none => exact ⟨rfl, rfl⟩
      | some sect =>
        cases sect with
        | dependencies =>
          refine ⟨?_, rfl⟩
          unfold getDep
          cases json.dependencies with
          | none =>
            show jsGet (objSet [] p u.version) q = none
            rw [jsGet_objSet_ne [] p q u.version hq]
            rfl
          | some l =>
            show jsGet (objSet l p u.version) q = jsGet l q
            exact jsGet_objSet_ne l p q u.version hq
        | devDependencies =>
          refine ⟨rfl, ?_⟩
          unfold getDevDep
          cases json.devDependencies with
          | none =>
            show jsGet (objSet [] p u.version) q = none
            rw [jsGet_objSet_ne [] p q u.version hq]
            rfl
          | some l =>
            show jsGet (objSet l p u.version) q = jsGet l q
            exact jsGet_objSet_ne l p q u.version hq

/-- The fold leaves keys outside the plan untouched. -/
theorem updatePackageJson_frame (plan : List (String × PkgUpdate)) :
    ∀ (json : PackageJsonFile) (q : String),
      ¬(q ∈ plan.map Prod.fst) →
      getDep (updatePackageJson json plan) q = getDep json q ∧
        getDevDep (updatePackageJson json plan) q = getDevDep json q := by
  induction plan with
  | nil => intro json q _; exact ⟨rfl, rfl⟩
  | cons e rest ih =>
    intro json q hq
    simp only [List.map_cons, List.mem_cons] at hq
    push_neg at hq
    have hstep := updatePackageJsonStep_frame json e.1 e.2 q hq.1
    have hrest := ih (updatePackageJsonStep json e.1 e.2) q hq.2
    unfold updatePackageJson at hrest ⊢
    simp only [List.foldl_cons]
    exact ⟨hrest.1.trans hstep.1, hrest.2.trans hstep.2⟩

/-- The branch taken by one iteration, and its effect on its own key,
depend only on that key of the incoming manifest. -/
theorem updatePackageJsonStep_congr (json json2 : PackageJsonFile)
    (p : String) (u : PkgUpdate)
    (hdep : getDep json2 p = getDep json p)
    (hdev : getDevDep json2 p = getDevDep json p) :
    getDep (updatePackageJsonStep json2 p u) p =
        getDep (updatePackageJsonStep json p u) p ∧
      getDevDep (updatePackageJsonStep json2 p u) p =
        getDevDep (updatePackageJsonStep json p u) p := by
  unfold updatePackageJsonStep
  rw [hdep, hdev]
  by_cases h1 : truthy (getDevDep json p) = true
  · rw [if_pos h1, if_pos h1]
    constructor
    · exact hdep
    · have hs : ∀ (j : PackageJsonFile), truthy (getDevDep j p) = true →
          getDevDep { j with devDependencies :=
            j.devDependencies.map (fun l => objSet l p u.version) } p =
          some u.version := by
        intro j hj
        unfold getDevDep at hj ⊢
        cases hjd : j.devDependencies with
        | none => rw [hjd] at hj; simp [truthy] at hj
        | some l => simp [jsGet_objSet_self]
      rw [hs json2 (by rw [hdev]; exact h1), hs json h1]
  · rw [if_neg h1, if_neg h1]
    by_cases h2 : truthy (getDep json p) = true
    · rw [if_pos h2, if_pos h2]
      constructor
      · have hs : ∀ (j : PackageJsonFile), truthy (getDep j p) = true →
            getDep { j with dependencies :=
              j.dependencies.map (fun l => objSet l p u.version) } p =
            some u.version := by
          intro j hj
          unfold getDep at hj ⊢
          cases hjd : j.dependencies with
          | none => rw [hjd] at hj; simp [truthy] at hj
          | some l => simp [jsGet_objSet_self]
        rw [hs json2 (by rw [hdep]; exact h2), hs json h2]
      · exact hdev
    · rw [if_neg h2, if_neg h2]
      cases hadd : u.addToPackageJson with
      | none => exact ⟨hdep, hdev⟩
      | some sect =>
        cases sect with
        | dependencies =>
          constructor
          · unfold getDep
            simp [jsGet_objSet_self]
          · exact hdev
        | devDependencies =>
          constructor
          · exact hdep
          · unfold getDevDep
            simp [jsGet_objSet_self]

/-- In a duplicate-free plan, the final manifest at a planned key equals the
manifest right after that key's own iteration on the original manifest. -/
theorem updatePackageJson_per_package (plan : List (String × PkgUpdate)) :
    ∀ (json : PackageJsonFile) (p : String) (u : PkgUpdate),
      (plan.map Prod.fst).Nodup → (p, u) ∈ plan →
      getDep (updatePackageJson json plan) p =
          getDep (updatePackageJsonStep json p u) p ∧
        getDevDep (updatePackageJson json plan) p =
          getDevDep (updatePackageJsonStep json p u) p := by
  induction plan with
  | nil => intro json p u _ hmem; cases hmem
  | cons e rest ih =>
    intro json p u hnd hmem
    simp only [List.map_cons, List.nodup_cons] at hnd
    rcases List.mem_cons.mp hmem with heq | hmem2
    · cases heq
      unfold updatePackageJson
      simp only [List.foldl_cons]
      exact updatePackageJson_frame rest _ p hnd.1
    · have hp_ne : ¬(p = e.1) := by
        intro hpe
        apply hnd.1
        rw [← hpe]
        exact List.mem_map_of_mem Prod.fst hmem2
      have hframe := updatePackageJsonStep_frame json e.1 e.2 p hp_ne
      have hih := ih (updatePackageJsonStep json e.1 e.2) p u hnd.2 hmem2
      have hcongr := updatePackageJsonStep_congr json
        (updatePackageJsonStep json e.1 e.2) p u hframe.1 hframe.2
      unfold updatePackageJson at hih ⊢
      simp only [List.foldl_cons]
      exact ⟨hih.1.trans hcongr.1, hih.2.trans hcongr.2⟩

/-- C5: for every planned package `p` in a duplicate-free plan: if `p` is in
`devDependencies`, that entry is rewritten to the planned version; else if in
`dependencies`, that entry is rewritten; else if `addToPackageJson` names a
section, `p` is inserted there at the planned version; else the manifest is
unchanged for `p`; and entries of packages outside the plan are unchanged. -/
theorem c5_updatePackageJson_rewrites (json : PackageJsonFile)
    (plan : List (String × PkgUpdate)) (hnd : (plan.map Prod.fst).Nodup) :
    (∀ p u, (p, u) ∈ plan →
      (truthy (getDevDep json p) = true →
        getDevDep (updatePackageJson json plan) p = some u.version) ∧
      (truthy (getDevDep json p) = false → truthy (getDep json p) = true →
        getDep (updatePackageJson json plan) p = some u.version ∧
          getDevDep (updatePackageJson json plan) p = getDevDep json p) ∧
      (truthy (getDevDep json p) = false → truthy (getDep json p) = false →
        ∀ sect, u.addToPackageJson = some sect →
          sectGet (updatePackageJson json plan) sect p = some u.version) ∧
      (truthy (getDevDep json p) = false → truthy (getDep json p) = false →
        u.addToPackageJson = none →
          getDep (updatePackageJson json plan) p = getDep json p ∧
            getDevDep (updatePackageJson json plan) p =
              getDevDep json p)) ∧
    (∀ q, ¬(q ∈ plan.map Prod.fst) →
      getDep (updatePackageJson json plan) q = getDep json q ∧
        getDevDep (updatePackageJson json plan) q = getDevDep json q) := by
  constructor
  · intro p u hmem
    have hpp := updatePackageJson_per_package plan json p u hnd hmem
    refine ⟨?_, ?_, ?_, ?_⟩
    · intro hdev
      rw [hpp.2]
      unfold updatePackageJsonStep
      rw [if_pos hdev]
      unfold getDevDep at hdev ⊢
      cases hjd : json.devDependencies with
      | none => rw [hjd] at hdev; simp [truthy] at hdev
      | some l => simp [jsGet_objSet_self]
    · intro hdev hdep
      rw [hpp.1, hpp.2]
      unfold updatePackageJsonStep
      rw [hdev]
      simp only [Bool.false_eq_true, if_false]
      rw [if_pos hdep]
      constructor
      · unfold getDep at hdep ⊢
        cases hjd : json.dependencies with
        | none => rw [hjd] at hdep; simp [truthy] at hdep
        | some l => simp [jsGet_objSet_self]
      · rfl
    · intro hdev hdep sect hadd
      unfold sectGet
      cases sect with
      | dependencies =>
        rw [hpp.1]
        unfold updatePackageJsonStep
        rw [hdev, hdep]
        simp only [Bool.false_eq_true, if_false]
        rw [hadd]
        unfold getDep
        simp [jsGet_objSet_self]
      | devDependencies =>
        rw [hpp.2]
        unfold updatePackageJsonStep
        rw [hdev, hdep]
        simp only [Bool.false_eq_true, if_false]
        rw [hadd]
        unfold getDevDep
        simp [jsGet_objSet_self]
    · intro hdev hdep hadd
      rw [hpp.1, hpp.2]
      unfold updatePackageJsonStep
      rw [hdev, hdep]
      simp only [Bool.false_eq_true, if_false]
      rw [hadd]
      exact ⟨rfl, rfl⟩
  · exact fun q hq => updatePackageJson_frame plan json q hq

/-- C5 witness: a plan touching an existing dependency, inserting a new
devDependency, and leaving a no-section package alone. -/
theorem c5_witness :
    ((([("a", ⟨"2.0.0", none, false, none⟩), ("q", ⟨"3.0.0",
        some .devDependencies, false, none⟩), ("r", ⟨"4.0.0", none, false,
        none⟩)] : List (String × PkgUpdate)).map Prod.fst).Nodup) ∧
      getDep (updatePackageJson
          { dependencies := some [("a", "1.0.0"), ("c", "0.1.0")] }
          [("a", ⟨"2.0.0", none, false, none⟩), ("q", ⟨"3.0.0",
            some .devDependencies, false, none⟩), ("r", ⟨"4.0.0", none,
            false, none⟩)]) "a" = some "2.0.0" := by
  refine ⟨by decide, ?_⟩
  have h := (c5_updatePackageJson_rewrites
    { dependencies := some [("a", "1.0.0"), ("c", "0.1.0")] }
    [("a", ⟨"2.0.0", none, false, none⟩), ("q", ⟨"3.0.0",
      some .devDependencies, false, none⟩), ("r", ⟨"4.0.0", none, false,
      none⟩)] (by decide)).1 "a" ⟨"2.0.0", none, false, none⟩
    (by decide)
  exact ((h.2.1 (by decide) (by decide)).1 : _)

/-- C9: when a planned package sits in both sections, only the
`devDependencies` entry is rewritten; the `dependencies` entry keeps its old
version string (the devDependencies test short-circuits). -/
theorem c9_updatePackageJson_devDeps_first (json : PackageJsonFile)
    (plan : List (String × PkgUpdate)) (p : String) (u : PkgUpdate)
    (hnd : (plan.map Prod.fst).Nodup) (hmem : (p, u) ∈ plan)
    (hdev : truthy (getDevDep json p) = true)
    (hdep : truthy (getDep json p) = true) :
    getDevDep (updatePackageJson json plan) p = some u.version ∧
      getDep (updatePackageJson json plan) p = getDep json p := by
  have hpp := updatePackageJson_per_package plan json p u hnd hmem
  constructor
  · rw [hpp.2]
    unfold updatePackageJsonStep
    rw [if_pos hdev]
    unfold getDevDep at hdev ⊢
    cases hjd : json.devDependencies with
    | none => rw [hjd] at hdev; simp [truthy] at hdev
    | some l => simp [jsGet_objSet_self]
  · rw [hpp.1]
    unfold updatePackageJsonStep
    rw [if_pos hdev]
    rfl

/-- C9 witness: `a` is in both sections; only devDependencies changes. -/
theorem c9_witness :
    getDevDep (updatePackageJson
        { dependencies := some [("a", "1.0.0")],
          devDependencies := some [("a", "1.0.1")] }
        [("a", ⟨"2.0.0", none, false, none⟩)]) "a" = some "2.0.0" ∧
      getDep (updatePackageJson
        { dependencies := some [("a", "1.0.0")],
          devDependencies := some [("a", "1.0.1")] }
        [("a", ⟨"2.0.0", none, false, none⟩)]) "a" = some "1.0.0" := by
  have h := c9_updatePackageJson_devDeps_first
    { dependencies := some [("a", "1.0.0")],
      devDependencies := some [("a", "1.0.1")] }
    [("a", ⟨"2.0.0", none, false, none⟩)] "a" ⟨"2.0.0", none, false, none⟩
    (by decide) (by decide) (by decide) (by decide)
  exact ⟨h.1, h.2.trans (by decide)⟩

/-! ## C1 — soundness of the final migration list -/

theorem createMigrateJsonHere_sound (env : MigEnv) (st : MigState)
    (k : String) (here : List EmittedMigration)
    (h : createMigrateJsonHere env st k = .ok here) :
    ∀ m ∈ here, m.package = k ∧ ∃ cur u,
      getPkgVersion env st k = some cur ∧
      jsGet st.packageJsonUpdates k = some u ∧
      migGt m.version cur = true ∧ migLte m.version u.version = true ∧
      areRequirementsMet env st m.requires none = true := by
  intro m hm
  unfold createMigrateJsonHere at h
  cases hg : getPkgVersion env st k with
  | none =>
    simp only [hg] at h
    injection h with h'
    subst h'
    cases hm
  | some cur =>
    simp only [hg] at h
    cases hj : jsGet st.packageJsonUpdates k with
    | none =>
      simp only [hj] at h
      exact Except.noConfusion h
    | some u =>
      simp only [hj] at h
      cases hf : fetchConfig env k u.version with
      | none =>
        simp only [hf] at h
        exact Except.noConfusion h
      | some cfg =>
        simp only [hf] at h
        cases hgen : cfg.generators with
        | none =>
          simp only [hgen] at h
          injection h with h'
          subst h'
          cases hm
        | some gens =>
          simp only [hgen] at h
          injection h with h'
          subst h'
          obtain ⟨e, he, rfl⟩ := List.mem_map.mp hm
          obtain ⟨hmemg, hpred⟩ := List.mem_filter.mp he
          simp only [Bool.and_eq_true] at hpred
          exact ⟨rfl, cur, u, rfl, rfl, hpred.1.1.2, hpred.1.2, hpred.2⟩

theorem createMigrateJsonGo_sound (env : MigEnv) (st : MigState) :
    ∀ (keys : List String) (ms : List EmittedMigration),
      createMigrateJsonGo env st keys = .ok ms →
      ∀ m ∈ ms, ∃ cur u,
        getPkgVersion env st m.package = some cur ∧
        jsGet st.packageJsonUpdates m.package = some u ∧
        migGt m.version cur = true ∧ migLte m.version u.version = true ∧
        areRequirementsMet env st m.requires none = true := by
  intro keys
  induction keys with
  | nil =>
    intro ms h m hm
    simp only [createMigrateJsonGo] at h
    injection h with h'
    subst h'
    cases hm
  | cons k rest ih =>
    intro ms h m hm
    simp only [createMigrateJsonGo] at h
    cases hh : createMigrateJsonHere env st k with
    | error e =>
      simp only [hh] at h
      exact Except.noConfusion h
    | ok here =>
      simp only [hh] at h
      cases hr : createMigrateJsonGo env st rest with
      | error e =>
        simp only [hr] at h
        exact Except.noConfusion h
      | ok restL =>
        simp only [hr] at h
        injection h with h'
        subst h'
        rcases List.mem_append.mp hm with hm1 | hm2
        · obtain ⟨hpk, cur, u, hgv, hjv, hgt, hlte, hreq⟩ :=
            createMigrateJsonHere_sound env st k here hh m hm1
          exact ⟨cur, u, by rw [hpk]; exact hgv, by rw [hpk]; exact hjv,
            hgt, hlte, hreq⟩
        · exact ih restL hr m hm2

/-- C1: every migration emitted by `createMigrateJson` satisfies, for its
package `p`: the installed version of `p` is non-null and strictly below the
migration version, the migration version is `≤` the planned version of `p`
(both under normalized semver), and its `requires` map is satisfied against
the final plan state (installed or planned version satisfying each range,
prereleases included via the collaborator `satisfies`); no generator
violating any of these appears in the output. -/
theorem c1_createMigrateJson_sound (env : MigEnv) (st : MigState)
    (ms : List EmittedMigration) (h : createMigrateJson env st = .ok ms) :
    ∀ m ∈ ms, ∃ cur u,
      getPkgVersion env st m.package = some cur ∧
      jsGet st.packageJsonUpdates m.package = some u ∧
      migGt m.version cur = true ∧ migLte m.version u.version = true ∧
      areRequirementsMet env st m.requires none = true :=
  createMigrateJsonGo_sound env st _ ms h

/-- C1 witness: a concrete run emits exactly the in-range generator, and the
theorem applies to it. -/
theorem c1_witness :
    createMigrateJson migEnvW migStateW = .ok [⟨"1.5.0", [], "a", "m1"⟩] ∧
      ∃ cur u,
        getPkgVersion migEnvW migStateW "a" = some cur ∧
        jsGet migStateW.packageJsonUpdates "a" = some u ∧
        migGt "1.5.0" cur = true ∧ migLte "1.5.0" u.version = true ∧
        areRequirementsMet migEnvW migStateW [] none = true := by
  have hok : createMigrateJson migEnvW migStateW =
      .ok [⟨"1.5.0", [], "a", "m1"⟩] := rfl
  refine ⟨hok, ?_⟩
  exact c1_createMigrateJson_sound migEnvW migStateW _ hok
    ⟨"1.5.0", [], "a", "m1"⟩ (by simp)

/-! ## C6 — the missing-migrations-file error and the install fallback -/

/-- C6 counterexample: with a registry that declares a migrations file the
tarball does not contain, `downloadPackageMigrationsFromRegistry` raises the
structured error, but `fetch` (the `nxMigrateFetcher`) catches it, falls
back to the temporary-install path and returns its manifest — the error is
NOT what `fetch` produces. -/
theorem c6_counterexample :
    downloadPackageMigrationsFromRegistry fetchEnvX "pkg" "1.0.0"
        { migrations := some "migrations.json" } =
      .error ("Failed to find migrations file \"migrations.json\" in " ++
        "package \"pkg@1.0.0\".") ∧
      nxMigrateFetcher fetchEnvX "pkg" "1.0.0" = .ok { version := "9.9.9" } ∧
      nxMigrateFetcher fetchEnvX "pkg" "1.0.0" ≠
        .error ("Failed to find migrations file \"migrations.json\" in " ++
          "package \"pkg@1.0.0\".") := by
  refine ⟨rfl, rfl, ?_⟩
  intro h
  rw [show nxMigrateFetcher fetchEnvX "pkg" "1.0.0" =
    .ok { version := "9.9.9" } from rfl] at h
  exact Except.noConfusion h

/-- C6 (amended): when the registry path finds a migrations config declaring
a migrations file that cannot be read from the packed tarball,
`downloadPackageMigrationsFromRegistry` raises the structured error
`Failed to find migrations file "X" in package "pkg@ver".`; `fetchMigrations`
catches any registry-path failure, so `fetch(pkg, version)` produces the
result of the temp-install fallback instead of this error. -/
theorem c6_fetcher_amended (env : FetchEnv) (pkg ver rv path : String)
    (cfg : NxMigrationsCfg)
    (hres : env.resolveVersion pkg ver = some rv)
    (hview : env.viewConfig pkg rv = some cfg)
    (hpath : cfg.migrations = some path) (hp : ¬(path = ""))
    (hread : env.readTarballMigrations pkg rv path = none) :
    downloadPackageMigrationsFromRegistry env pkg rv cfg =
        .error ("Failed to find migrations file \"" ++ path ++
          "\" in package \"" ++ pkg ++ "@" ++ rv ++ "\".") ∧
      nxMigrateFetcher env pkg ver =
        (getPackageMigrationsUsingInstall env pkg ver).map
          renameSchematics := by
  have hdl : downloadPackageMigrationsFromRegistry env pkg rv cfg =
      .error ("Failed to find migrations file \"" ++ path ++
        "\" in package \"" ++ pkg ++ "@" ++ rv ++ "\".") := by
    unfold downloadPackageMigrationsFromRegistry
    simp only [hpath, Option.getD_some, hread]
  refine ⟨hdl, ?_⟩
  have hreg : getPackageMigrationsUsingRegistry env pkg rv =
      .error ("Failed to find migrations file \"" ++ path ++
        "\" in package \"" ++ pkg ++ "@" ++ rv ++ "\".") := by
    unfold getPackageMigrationsUsingRegistry
    simp only [hview]
    rw [if_neg (by simp [hpath, truthy, hp])]
    exact hdl
  unfold nxMigrateFetcher fetchMigrations
  simp only [hres, hreg]

/-- C6 witness: the amended theorem applied to the concrete environment. -/
theorem c6_witness :
    nxMigrateFetcher fetchEnvX "pkg" "1.0.0" =
      (getPackageMigrationsUsingInstall fetchEnvX "pkg" "1.0.0").map
        renameSchematics :=
  (c6_fetcher_amended fetchEnvX "pkg" "1.0.0" "1.0.0" "migrations.json"
    { migrations := some "migrations.json" } rfl rfl rfl (by decide) rfl).2

/-! ## C4 — the not-installed early return and the `to` override -/

/-- C4 counterexample: `p` is pinned by `to` to 9.9.9 and not installed; the
recorded update keeps the ORIGINAL `target.version` 1.0.0, not the
`to`-overridden version, contradicting the claim (which also follows the
wording of spec §4.5 step 2 after step 1s override). -/
theorem c4_counterexample :
    populatePackageJsonUpdatesAndGetPackagesToCheck 5 migEnvPin "p"
        { version := "1.0.0" } {} =
      .ok { packageJsonUpdates := [("p", { version := "1.0.0" })] } [] ∧
      ¬("1.0.0" = "9.9.9") := by
  exact ⟨by decide, by decide⟩

/-- C4 (amended): if `to[pkg]` is set it overrides only the version used to
resolve and fetch (for an installed package the traversal behaves exactly as
if the target version were the pin); whenever the installed version of `pkg`
is null, the planner records `{version: target.version (the original target,
not the to-override), addToPackageJson: target.addToPackageJson ?? false}`
and returns the empty list without fetching or descending (the result is
the same for every fetch oracle and adds only this one entry). -/
theorem c4_populate_amended :
    (∀ (fuel : Nat) (env : MigEnv) (pkg : String) (target : PkgUpdate)
        (st : MigState), ¬(fuel = 0) →
      truthy (getPkgVersion env st pkg) = false →
      populatePackageJsonUpdatesAndGetPackagesToCheck fuel env pkg target
          st =
        .ok (addPackageJsonUpdate st pkg
          { version := target.version,
            addToPackageJson := target.addToPackageJson }) []) ∧
    (∀ (fuel : Nat) (env : MigEnv) (pkg : String) (target : PkgUpdate)
        (st : MigState) (pin : String),
      jsGet env.toPins pkg = some pin → ¬(pin = "") →
      truthy (getPkgVersion env st pkg) = true →
      populatePackageJsonUpdatesAndGetPackagesToCheck fuel env pkg target
          st =
        populatePackageJsonUpdatesAndGetPackagesToCheck fuel env pkg
          { target with version := pin } st) := by
  constructor
  · intro fuel env pkg target st hf h
    cases fuel with
    | zero => exact absurd rfl hf
    | succ f =>
      unfold populatePackageJsonUpdatesAndGetPackagesToCheck
      rw [h]
      simp
  · intro fuel env pkg target st pin hpin hne hinst
    cases fuel with
    | zero => rfl
    | succ f =>
      unfold populatePackageJsonUpdatesAndGetPackagesToCheck
      rw [hpin]
      have htr : truthy (some pin) = true := by simp [truthy, hne]
      simp only [htr, Option.getD_some, if_true, hinst]
      simp

/-- C4 witness: both conjuncts of the amended theorem at the concrete
pinned environment. -/
theorem c4_witness :
    ¬((5 : Nat) = 0) ∧
      truthy (getPkgVersion migEnvPin {} "p") = false ∧
      populatePackageJsonUpdatesAndGetPackagesToCheck 5 migEnvPin "p"
          { version := "1.0.0" } {} =
        .ok (addPackageJsonUpdate {} "p"
          { version := "1.0.0", addToPackageJson := none }) [] := by
  refine ⟨by decide, by decide, ?_⟩
  exact c4_populate_amended.1 5 migEnvPin "p" { version := "1.0.0" } {}
    (by decide) (by decide)

/-! ## Coverage-measure lemmas (C2 infrastructure) -/

theorem covPres_refl (st : MigState) : covPres st st := fun _ _ h => h

theorem covPres_trans {s1 s2 s3 : MigState} (h1 : covPres s1 s2)
    (h2 : covPres s2 s3) : covPres s1 s3 :=
  fun p v h => h2 p v (h1 p v h)

theorem covB_congr {st st' : MigState}
    (h : st'.collectedVersions = st.collectedVersions) (p v : String) :
    covB st' p v = covB st p v := by
  unfold covB
  rw [h]

theorem covPres_of_collected_eq {st st' : MigState}
    (h : st'.collectedVersions = st.collectedVersions) : covPres st st' :=
  fun p v hc => by rw [covB_congr h]; exact hc

theorem addPackageJsonUpdate_eq_or (st : MigState) (n : String)
    (u : PkgUpdate) :
    addPackageJsonUpdate st n u = st ∨
      addPackageJsonUpdate st n u =
        { st with packageJsonUpdates := objSet st.packageJsonUpdates n u } := by
  unfold addPackageJsonUpdate
  cases hj : jsGet st.packageJsonUpdates n with
  | none => right; rfl
  | some e =>
    simp only []
    by_cases hg : migGt u.version e.version = true
    · rw [if_pos hg]
      right
      rfl
    · rw [if_neg hg]
      left
      rfl

theorem addPackageJsonUpdate_collectedVersions (st : MigState) (n : String)
    (u : PkgUpdate) :
    (addPackageJsonUpdate st n u).collectedVersions =
      st.collectedVersions := by
  rcases addPackageJsonUpdate_eq_or st n u with h | h <;> rw [h]

theorem addPackageJsonUpdate_overrides (st : MigState) (n : String)
    (u : PkgUpdate) :
    (addPackageJsonUpdate st n u).installedPkgVersionOverrides =
      st.installedPkgVersionOverrides := by
  rcases addPackageJsonUpdate_eq_or st n u with h | h <;> rw [h]

/-- A version string that parses is nonempty. -/
theorem parseSemVer_ne_empty {v : String} {p : SemVer}
    (h : parseSemVer v = some p) : ¬(v = "") := by
  intro hv
  subst hv
  rw [show parseSemVer "" = none from by decide] at h
  exact Option.noConfusion h

/-- Setting `collectedVersions[pkg]` to a guard-passing resolved version
preserves coverage of every already-covered pair. -/
theorem covPres_guard_set (st : MigState) (pkg tv : String)
    (hpass : covB st pkg tv = false) :
    covPres st { st with
      collectedVersions := objSet st.collectedVersions pkg tv } := by
  intro p v hcov
  unfold covB at hcov ⊢
  by_cases hp : p = pkg
  · subst hp
    cases hw : jsGet st.collectedVersions p with
    | none => rw [hw] at hcov; exact Bool.noConfusion hcov
    | some w =>
      rw [hw] at hcov
      simp only [Bool.and_eq_true, Bool.not_eq_true', decide_eq_false_iff_not,
        Bool.not_eq_eq_eq_not, Bool.not_true, decide_eq_false_iff_not] at hcov
      unfold covB at hpass
      rw [hw] at hpass
      simp only [Bool.and_eq_false_iff, Bool.not_eq_false',
        decide_eq_true_eq, Bool.not_eq_eq_eq_not, Bool.not_false,
        decide_eq_true_eq] at hpass
      rcases hpass with hw0 | hgf
      · exact absurd hw0 hcov.1
      · simp only [jsGet_objSet_self]
        obtain ⟨pw, ptv, hpw, hptv, _⟩ := gteS_false_parts hgf
        have htv : ¬(tv = "") := parseSemVer_ne_empty hptv
        have hnext := gteS_upgrade_preserves hgf hcov.2
        simp only [Bool.and_eq_true, Bool.not_eq_true',
          decide_eq_false_iff_not, Bool.not_eq_eq_eq_not, Bool.not_true]
        constructor
        · simp [htv]
        · simp [hnext]
  · rw [show jsGet (objSet st.collectedVersions pkg tv) p =
      jsGet st.collectedVersions p from jsGet_objSet_ne _ _ _ _ hp]
    exact hcov

/-- After the guard-passing set, the freshly stored pair is covered (when
the resolved version is truthy). -/
theorem covB_after_guard_set (st : MigState) (pkg tv : String)
    (htv : ¬(tv = "")) :
    covB { st with
      collectedVersions := objSet st.collectedVersions pkg tv } pkg tv =
      true := by
  unfold covB
  simp only [jsGet_objSet_self]
  have := gteS_self_not_false tv
  simp [htv, this]

theorem filter_notCov_cons_true {st : MigState}
    (a : (String × String) × MigConfig)
    (t : List ((String × String) × MigConfig))
    (hc : covB st a.1.1 a.2.version = true) :
    (a :: t).filter (fun e => !(covB st e.1.1 e.2.version)) =
      t.filter (fun e => !(covB st e.1.1 e.2.version)) := by
  simp [List.filter_cons, hc]

theorem filter_notCov_cons_false {st : MigState}
    (a : (String × String) × MigConfig)
    (t : List ((String × String) × MigConfig))
    (hc : covB st a.1.1 a.2.version = false) :
    (a :: t).filter (fun e => !(covB st e.1.1 e.2.version)) =
      a :: t.filter (fun e => !(covB st e.1.1 e.2.version)) := by
  simp [List.filter_cons, hc]

theorem filter_notCov_le {st st' : MigState} (h : covPres st st')
    (l : List ((String × String) × MigConfig)) :
    (l.filter (fun e => !(covB st' e.1.1 e.2.version))).length ≤
      (l.filter (fun e => !(covB st e.1.1 e.2.version))).length := by
  induction l with
  | nil => exact Nat.le_refl _
  | cons a t ih =>
    cases hc : covB st a.1.1 a.2.version with
    | true =>
      rw [filter_notCov_cons_true a t hc,
        filter_notCov_cons_true a t (h a.1.1 a.2.version hc)]
      exact ih
    | false =>
      rw [filter_notCov_cons_false a t hc]
      cases hc' : covB st' a.1.1 a.2.version with
      | true =>
        rw [filter_notCov_cons_true a t hc']
        exact Nat.le_succ_of_le ih
      | false =>
        rw [filter_notCov_cons_false a t hc']
        exact Nat.succ_le_succ ih

theorem filter_notCov_lt {st st' : MigState} (h : covPres st st')
    (l : List ((String × String) × MigConfig))
    (e0 : (String × String) × MigConfig) (he0 : e0 ∈ l)
    (hbefore : covB st e0.1.1 e0.2.version = false)
    (hafter : covB st' e0.1.1 e0.2.version = true) :
    (l.filter (fun e => !(covB st' e.1.1 e.2.version))).length <
      (l.filter (fun e => !(covB st e.1.1 e.2.version))).length := by
  induction l with
  | nil => cases he0
  | cons a t ih =>
    rcases List.mem_cons.mp he0 with rfl | hmem
    · rw [filter_notCov_cons_false e0 t hbefore,
        filter_notCov_cons_true e0 t hafter]
      exact Nat.lt_succ_of_le (filter_notCov_le h t)
    · cases hc : covB st a.1.1 a.2.version with
      | true =>
        rw [filter_notCov_cons_true a t hc,
          filter_notCov_cons_true a t (h a.1.1 a.2.version hc)]
        exact ih hmem
      | false =>
        rw [filter_notCov_cons_false a t hc]
        cases hc' : covB st' a.1.1 a.2.version with
        | true =>
          rw [filter_notCov_cons_true a t hc']
          exact Nat.lt_succ_of_le (Nat.le_of_lt (ih hmem))
        | false =>
          rw [filter_notCov_cons_false a t hc']
          exact Nat.succ_lt_succ (ih hmem)

theorem notCovCount_le_of_covPres {env : MigEnv} {st st' : MigState}
    (h : covPres st st') : notCovCount env st' ≤ notCovCount env st :=
  filter_notCov_le h env.fetch

/-- Passing the guard strictly shrinks the measure (for a truthy resolved
version): the fetched entry itself flips to covered. -/
theorem notCovCount_lt_guard_pass (env : MigEnv) (st : MigState)
    (pkg tv0 : String) (cfg : MigConfig)
    (hf : fetchConfig env pkg tv0 = some cfg)
    (hpass : covB st pkg cfg.version = false) (htv : ¬(cfg.version = "")) :
    notCovCount env { st with
      collectedVersions := objSet st.collectedVersions pkg cfg.version } <
      notCovCount env st := by
  unfold fetchConfig at hf
  cases hfind : env.fetch.find? (fun e => e.1.1 = pkg && e.1.2 = tv0) with
  | none => rw [hfind] at hf; exact Option.noConfusion hf
  | some e0 =>
    rw [hfind] at hf
    simp only [Option.map_some', Option.some_inj] at hf
    have hmem := List.mem_of_find?_eq_some hfind
    have hkey := List.find?_some hfind
    simp only [Bool.and_eq_true, decide_eq_true_eq] at hkey
    have hpkg : e0.1.1 = pkg := hkey.1
    have hver : e0.2.version = cfg.version := by rw [hf]
    unfold notCovCount
    apply filter_notCov_lt (covPres_guard_set st pkg cfg.version hpass)
      env.fetch e0 hmem
    · rw [hpkg, hver]
      exact hpass
    · rw [hpkg, hver]
      exact covB_after_guard_set st pkg cfg.version htv

theorem covB_false_of_not_truthy {st : MigState} {pkg : String}
    (h : truthy (jsGet st.collectedVersions pkg) = false) (v : String) :
    covB st pkg v = false := by
  unfold covB
  cases hw : jsGet st.collectedVersions pkg with
  | none => rfl
  | some w =>
    rw [hw] at h
    unfold truthy at h
    simp only [Bool.not_eq_true', decide_eq_true_eq] at h
    simp [h]

theorem covB_false_of_gteS_false {st : MigState} {pkg v : String}
    (h : gteS ((jsGet st.collectedVersions pkg).getD "") v = some false) :
    covB st pkg v = false := by
  unfold covB
  cases hw : jsGet st.collectedVersions pkg with
  | none => rfl
  | some w =>
    rw [hw] at h
    simp only [Option.getD_some] at h
    simp [h]

/-- `getPackageJsonUpdatesFromMigrationConfig` only mutates the override
map. -/
theorem getPJUFromConfig_state (env : MigEnv) (st : MigState)
    (pkg tv : String) (cfg : MigConfig)
    (r : List UpdateEntry × List String) (st2 : MigState)
    (h : getPackageJsonUpdatesFromMigrationConfig env st pkg tv cfg =
      .ok (r, st2)) :
    st2.collectedVersions = st.collectedVersions ∧
      st2.packageJsonUpdates = st.packageJsonUpdates := by
  unfold getPackageJsonUpdatesFromMigrationConfig at h
  cases hn : normalizePackageGroup st.installedPkgVersionOverrides pkg tv
      cfg.packageGroup with
  | error e =>
    rw [hn] at h
    exact Except.noConfusion h
  | ok pr =>
    obtain ⟨pg, ov2⟩ := pr
    rw [hn] at h
    simp only [] at h
    split at h
    · injection h with h2
      have h3 := congrArg Prod.snd h2
      simp only [] at h3
      rw [← h3]
      exact ⟨rfl, rfl⟩
    · split at h
      · injection h with h2
        have h3 := congrArg Prod.snd h2
        simp only [] at h3
        rw [← h3]
        exact ⟨rfl, rfl⟩
      · injection h with h2
        have h3 := congrArg Prod.snd h2
        simp only [] at h3
        rw [← h3]
        exact ⟨rfl, rfl⟩

/-- Mutual coverage preservation: every planner recursion only grows what
`collectedVersions` blocks. -/
theorem planner_covPres : ∀ (fuel : Nat),
    (∀ (env : MigEnv) (pkg : String) (target : PkgUpdate)
        (st st' : MigState) (v : List CheckGroup),
      populatePackageJsonUpdatesAndGetPackagesToCheck fuel env pkg target
          st = .ok st' v → covPres st st') ∧
    (∀ (env : MigEnv) (pkg : String) (tA : Option Sect) (rv : String)
        (cfg : MigConfig) (st st' : MigState) (v : List CheckGroup),
      populateFromMigrationConfig fuel env pkg tA rv cfg st = .ok st' v →
        covPres st st') ∧
    (∀ (env : MigEnv) (l : List (String × PkgUpdate)) (st st' : MigState)
        (v : List (List CheckGroup)),
      populateChildren fuel env l st = .ok st' v → covPres st st') ∧
    (∀ (env : MigEnv) (pkg : String) (target : PkgUpdate)
        (st st' : MigState) (v : Unit),
      buildPackageJsonUpdates fuel env pkg target st = .ok st' v →
        covPres st st') ∧
    (∀ (env : MigEnv) (gs : List CheckGroup) (st st' : MigState) (v : Unit),
      buildCheckGroups fuel env gs st = .ok st' v → covPres st st') ∧
    (∀ (env : MigEnv) (l : List (String × PkgUpdate)) (st st' : MigState)
        (v : Unit),
      buildChildren fuel env l st = .ok st' v → covPres st st') := by
  intro fuel
  induction fuel with
  | zero =>
    refine ⟨?_, ?_, ?_, ?_, ?_, ?_⟩ <;>
      first
      | (intro env pkg target st st' v h; exact PRes.noConfusion h)
      | (intro env pkg tA rv cfg st st' v h; exact PRes.noConfusion h)
      | (intro env l st st' v h; exact PRes.noConfusion h)
      | (intro env gs st st' v h; exact PRes.noConfusion h)
  | succ f ih =>
    obtain ⟨ihP, ihA, ihC, ihB, ihG, ihD⟩ := ih
    refine ⟨?_, ?_, ?_, ?_, ?_, ?_⟩
    · intro env pkg target st st' v h
      simp only [populatePackageJsonUpdatesAndGetPackagesToCheck] at h
      split at h
      · injection h with h1 h2
        subst h1
        exact covPres_of_collected_eq
          (addPackageJsonUpdate_collectedVersions st pkg _)
      · split at h
        · exact PRes.noConfusion h
        · rename_i cfg hcfg
          split at h
          · rename_i hstored
            split at h
            · exact PRes.noConfusion h
            · injection h with h1 h2
              subst h1
              exact covPres_refl st
            · rename_i hgte
              refine covPres_trans (covPres_guard_set st pkg cfg.version
                (covB_false_of_gteS_false hgte)) ?_
              exact ihA env pkg target.addToPackageJson cfg.version cfg _
                st' v h
          · rename_i hstored
            refine covPres_trans (covPres_guard_set st pkg cfg.version
              (covB_false_of_not_truthy
                (Bool.eq_false_iff.mpr hstored) cfg.version)) ?_
            exact ihA env pkg target.addToPackageJson cfg.version cfg _
              st' v h
    · intro env pkg tA rv cfg st st' v h
      simp only [populateFromMigrationConfig] at h
      split at h
      · exact PRes.noConfusion h
      · rename_i us order st2 hpju
        have hst2 := getPJUFromConfig_state env st pkg rv cfg _ _ hpju
        have hcoll3 :
            (addPackageJsonUpdate st2 pkg
              { version := rv, addToPackageJson := tA }).collectedVersions =
              st.collectedVersions := by
          rw [addPackageJsonUpdate_collectedVersions]
          exact hst2.1
        split at h
        · injection h with h1 h2
          subst h1
          exact covPres_of_collected_eq hcoll3
        · split at h
          · rename_i st4 results hch
            injection h with h1 h2
            subst h1
            exact covPres_trans (covPres_of_collected_eq hcoll3)
              (ihC env _ _ st4 results hch)
          · exact PRes.noConfusion h
          · exact PRes.noConfusion h
    · intro env l st st' v h
      simp only [populateChildren] at h
      split at h
      · injection h with h1 h2
        subst h1
        exact covPres_refl st
      · rename_i c rest
        split at h
        · rename_i stc gs hpop
          split at h
          · rename_i std gss hrest
            injection h with h1 h2
            subst h1
            exact covPres_trans (ihP env c.1 c.2 st stc gs hpop)
              (ihC env rest stc std gss hrest)
          · exact PRes.noConfusion h
          · exact PRes.noConfusion h
        · exact PRes.noConfusion h
        · exact PRes.noConfusion h
    · intro env pkg target st st' v h
      simp only [buildPackageJsonUpdates] at h
      split at h
      · rename_i stc gs hpop
        exact covPres_trans (ihP env pkg target st stc gs hpop)
          (ihG env gs stc st' v h)
      · exact PRes.noConfusion h
      · exact PRes.noConfusion h
    · intro env gs st st' v h
      simp only [buildCheckGroups] at h
      split at h
      · injection h with h1 h2
        subst h1
        exact covPres_refl st
      · rename_i g rest
        split at h
        · rename_i stc u hbc
          exact covPres_trans (ihD env _ st stc u hbc)
            (ihG env rest stc st' v h)
        · exact PRes.noConfusion h
        · exact PRes.noConfusion h
    · intro env l st st' v h
      simp only [buildChildren] at h
      split at h
      · injection h with h1 h2
        subst h1
        exact covPres_refl st
      · rename_i c rest
        split at h
        · rename_i stc u hb
          exact covPres_trans (ihB env c.1 c.2 st stc u hb)
            (ihD env rest stc st' v h)
        · exact PRes.noConfusion h
        · exact PRes.noConfusion h

theorem notCovCount_congr {st st' : MigState}
    (h : st'.collectedVersions = st.collectedVersions) (env : MigEnv) :
    notCovCount env st' = notCovCount env st := by
  unfold notCovCount
  congr 1
  apply List.filter_congr
  intro e _
  rw [covB_congr h]

theorem normalizeVersion_empty : normalizeVersion "" = "0.0.0" := by decide

/-- If the migration of `u` is not above the empty resolved version, its
normalization is `0.0.0` semantically, so it is below every installed
version. -/
theorem migLte_of_migGt_empty_false {u : String}
    (h : migGt u "" = false) (inst : String) : migLte u inst = true := by
  rcases normalizeVersion_spec u with hz | hgt
  · exact migLte_of_norm_zero hz
  · exfalso
    unfold migGt at h
    rw [normalizeVersion_empty, hgt] at h
    simp at h

/-- With an empty resolved target version, the update filter drops every
entry: survivors would need a version both above the installed one and not
above `0.0.0`. -/
theorem filterGo_empty_tv (env : MigEnv) (st : MigState) (pkg : String) :
    ∀ l, filterPackageJsonUpdatesGo env st pkg "" l = [] := by
  intro l
  induction l with
  | nil => rfl
  | cons u rest ih =>
    unfold filterPackageJsonUpdatesGo
    cases hp : u.packages with
    | none => exact ih
    | some pkgs =>
      simp only []
      have hcond : (migLte u.version ((getPkgVersion env st pkg).getD "") ||
          migGt u.version "") = true := by
        by_cases hg : migGt u.version "" = true
        · simp [hg]
        · have hl := migLte_of_migGt_empty_false (Bool.eq_false_iff.mpr hg)
            ((getPkgVersion env st pkg).getD "")
          simp [hl]
      rw [if_pos hcond]
      exact ih

/-- With an empty resolved target version the manifest walk returns no
applicable updates. -/
theorem getPJU_empty_tv (env : MigEnv) (st : MigState) (pkg : String)
    (cfg : MigConfig) (r : List UpdateEntry × List String) (st2 : MigState)
    (h : getPackageJsonUpdatesFromMigrationConfig env st pkg "" cfg =
      .ok (r, st2)) : r.1 = [] := by
  unfold getPackageJsonUpdatesFromMigrationConfig at h
  cases hn : normalizePackageGroup st.installedPkgVersionOverrides pkg ""
      cfg.packageGroup with
  | error e =>
    rw [hn] at h
    exact Except.noConfusion h
  | ok pr =>
    obtain ⟨pg, ov2⟩ := pr
    rw [hn] at h
    simp only [] at h
    split at h
    · injection h with h2
      have h3 := congrArg (fun q => q.1.1) h2
      simp only [] at h3
      rw [← h3]
    · split at h
      · injection h with h2
        have h3 := congrArg (fun q => q.1.1) h2
        simp only [] at h3
        rw [← h3]
      · injection h with h2
        have h3 := congrArg (fun q => q.1.1) h2
        simp only [] at h3
        rw [← h3]
        unfold filterPackageJsonUpdates
        exact filterGo_empty_tv env _ pkg _

theorem populateChildren_nil {fuel : Nat} {env : MigEnv} {st st' : MigState}
    {r : List (List CheckGroup)}
    (h : populateChildren fuel env [] st = .ok st' r) :
    r = [] ∧ st' = st := by
  cases fuel with
  | zero => exact PRes.noConfusion h
  | succ f =>
    simp only [populateChildren] at h
    injection h with h1 h2
    exact ⟨h2.symm, h1.symm⟩

/-- A walk from an empty resolved version emits no check groups. -/
theorem populateFromMigrationConfig_empty_value {fuel : Nat} {env : MigEnv}
    {pkg : String} {tA : Option Sect} {cfg : MigConfig} {st st' : MigState}
    {v : List CheckGroup}
    (h : populateFromMigrationConfig fuel env pkg tA "" cfg st =
      .ok st' v) : v = [] := by
  cases fuel with
  | zero => exact PRes.noConfusion h
  | succ f =>
    simp only [populateFromMigrationConfig] at h
    split at h
    · exact PRes.noConfusion h
    · rename_i us order st2 hpju
      have hus : us = [] := getPJU_empty_tv env st pkg cfg _ _ hpju
      subst hus
      simp only [List.any_nil, List.foldl_nil] at h
      split at h
      · rename_i hsc
        exact absurd hsc (by decide)
      · split at h
        · rename_i st4 results hch
          obtain ⟨hres, hst4⟩ := populateChildren_nil hch
          subst hres
          injection h with h1 h2
          rw [← h2]
          rfl
        · exact PRes.noConfusion h
        · exact PRes.noConfusion h

/-- A walk from an empty resolved version needs no recursion: fuel 2 always
suffices for it not to run out. -/
theorem populateFromMigrationConfig_empty_ok (env : MigEnv) (pkg : String)
    (tA : Option Sect) (cfg : MigConfig) (st : MigState) :
    populateFromMigrationConfig 2 env pkg tA "" cfg st ≠ .nofuel := by
  simp only [populateFromMigrationConfig]
  cases hg : getPackageJsonUpdatesFromMigrationConfig env st pkg "" cfg with
  | error e =>
    simp only [hg]
    intro hc
    exact PRes.noConfusion hc
  | ok pr =>
    obtain ⟨⟨us, order⟩, st2⟩ := pr
    have hus : us = [] := getPJU_empty_tv env st pkg cfg _ _ hg
    subst hus
    simp only [hg, List.any_nil, List.foldl_nil, populateChildren]
    intro hc
    exact PRes.noConfusion hc

/-! ### One-step unfolding equations for the fuel-indexed planner -/

theorem populate_succ_eq (f : Nat) (env : MigEnv) (pkg : String)
    (target : PkgUpdate) (st : MigState) :
    populatePackageJsonUpdatesAndGetPackagesToCheck (f + 1) env pkg target
        st =
      (if truthy (getPkgVersion env st pkg) = false then
        .ok (addPackageJsonUpdate st pkg
          { version := target.version,
            addToPackageJson := target.addToPackageJson }) []
      else
        match fetchConfig env pkg
            (if truthy (jsGet env.toPins pkg) then
              (jsGet env.toPins pkg).getD ""
            else target.version) with
        | none =>
          .thrown ("No matching version for " ++ pkg ++ "@" ++
            (if truthy (jsGet env.toPins pkg) then
              (jsGet env.toPins pkg).getD ""
            else target.version))
        | some migrationConfig =>
          if truthy (jsGet st.collectedVersions pkg) then
            match gteS ((jsGet st.collectedVersions pkg).getD "")
                migrationConfig.version with
            | none => .thrown "Invalid Version"
            | some true => .ok st []
            | some false =>
              populateFromMigrationConfig f env pkg target.addToPackageJson
                migrationConfig.version migrationConfig
                { st with collectedVersions :=
                    objSet st.collectedVersions pkg migrationConfig.version }
          else
            populateFromMigrationConfig f env pkg target.addToPackageJson
              migrationConfig.version migrationConfig
              { st with collectedVersions :=
                  objSet st.collectedVersions pkg migrationConfig.version })
      := rfl

theorem pFMC_succ_eq (f : Nat) (env : MigEnv) (pkg : String)
    (tA : Option Sect) (rv : String) (cfg : MigConfig) (st : MigState) :
    populateFromMigrationConfig (f + 1) env pkg tA rv cfg st =
      (match getPackageJsonUpdatesFromMigrationConfig env st pkg rv cfg with
      | .error e => .thrown e
      | .ok ((packageJsonUpdates, packageGroupOrder), st2) =>
        if packageJsonUpdates.any (fun u =>
            (env.interactive && truthy u.xPrompt) || !u.requires.isEmpty) then
          .ok (addPackageJsonUpdate st2 pkg
              { version := rv, addToPackageJson := tA })
            [{ package := pkg, updates := packageJsonUpdates }]
        else
          match populateChildren f env
              (packageJsonUpdates.foldl
                (fun m c => mergePackages m (c.packages.getD [])) [])
              (addPackageJsonUpdate st2 pkg
                { version := rv, addToPackageJson := tA }) with
          | .ok st4 results =>
            .ok st4 (sortByGroupOrder packageGroupOrder
              ((results.filter (fun l => !l.isEmpty)).flatten))
          | .thrown m => .thrown m
          | .nofuel => .nofuel) := rfl

theorem populateChildren_succ_nil (f : Nat) (env : MigEnv) (st : MigState) :
    populateChildren (f + 1) env [] st = .ok st [] := rfl

theorem populateChildren_succ_cons (f : Nat) (env : MigEnv)
    (c : String × PkgUpdate) (rest : List (String × PkgUpdate))
    (st : MigState) :
    populateChildren (f + 1) env (c :: rest) st =
      (match populatePackageJsonUpdatesAndGetPackagesToCheck f env c.1 c.2
          st with
      | .ok st1 gs =>
        match populateChildren f env rest st1 with
        | .ok st2 gss => .ok st2 (gs :: gss)
        | .thrown m => .thrown m
        | .nofuel => .nofuel
      | .thrown m => .thrown m
      | .nofuel => .nofuel) := rfl

theorem buildPJU_succ_eq (f : Nat) (env : MigEnv) (pkg : String)
    (target : PkgUpdate) (st : MigState) :
    buildPackageJsonUpdates (f + 1) env pkg target st =
      (match populatePackageJsonUpdatesAndGetPackagesToCheck f env pkg
          target st with
      | .ok st1 packagesToCheck => buildCheckGroups f env packagesToCheck st1
      | .thrown m => .thrown m
      | .nofuel => .nofuel) := rfl

theorem buildCheckGroups_succ_nil (f : Nat) (env : MigEnv) (st : MigState) :
    buildCheckGroups (f + 1) env [] st = .ok st () := rfl

theorem buildCheckGroups_succ_cons (f : Nat) (env : MigEnv) (g : CheckGroup)
    (rest : List CheckGroup) (st : MigState) :
    buildCheckGroups (f + 1) env (g :: rest) st =
      (match buildChildren f env
          (collectFilteredUpdates env st g.updates []) st with
      | .ok st1 _ => buildCheckGroups f env rest st1
      | .thrown m => .thrown m
      | .nofuel => .nofuel) := rfl

theorem buildChildren_succ_nil (f : Nat) (env : MigEnv) (st : MigState) :
    buildChildren (f + 1) env [] st = .ok st () := rfl

theorem buildChildren_succ_cons (f : Nat) (env : MigEnv)
    (c : String × PkgUpdate) (rest : List (String × PkgUpdate))
    (st : MigState) :
    buildChildren (f + 1) env (c :: rest) st =
      (match buildPackageJsonUpdates f env c.1 c.2 st with
      | .ok st1 _ => buildChildren f env rest st1
      | .thrown m => .thrown m
      | .nofuel => .nofuel) := rfl

/-- One more unit of fuel never changes a planner result that did not run
out. -/
theorem planner_fuel_succ : ∀ (fuel : Nat),
    (∀ (env : MigEnv) (pkg : String) (target : PkgUpdate) (st : MigState),
      populatePackageJsonUpdatesAndGetPackagesToCheck fuel env pkg target
          st ≠ .nofuel →
        populatePackageJsonUpdatesAndGetPackagesToCheck (fuel + 1) env pkg
            target st =
          populatePackageJsonUpdatesAndGetPackagesToCheck fuel env pkg
            target st) ∧
    (∀ (env : MigEnv) (pkg : String) (tA : Option Sect) (rv : String)
        (cfg : MigConfig) (st : MigState),
      populateFromMigrationConfig fuel env pkg tA rv cfg st ≠ .nofuel →
        populateFromMigrationConfig (fuel + 1) env pkg tA rv cfg st =
          populateFromMigrationConfig fuel env pkg tA rv cfg st) ∧
    (∀ (env : MigEnv) (l : List (String × PkgUpdate)) (st : MigState),
      populateChildren fuel env l st ≠ .nofuel →
        populateChildren (fuel + 1) env l st =
          populateChildren fuel env l st) ∧
    (∀ (env : MigEnv) (pkg : String) (target : PkgUpdate) (st : MigState),
      buildPackageJsonUpdates fuel env pkg target st ≠ .nofuel →
        buildPackageJsonUpdates (fuel + 1) env pkg target st =
          buildPackageJsonUpdates fuel env pkg target st) ∧
    (∀ (env : MigEnv) (gs : List CheckGroup) (st : MigState),
      buildCheckGroups fuel env gs st ≠ .nofuel →
        buildCheckGroups (fuel + 1) env gs st =
          buildCheckGroups fuel env gs st) ∧
    (∀ (env : MigEnv) (l : List (String × PkgUpdate)) (st : MigState),
      buildChildren fuel env l st ≠ .nofuel →
        buildChildren (fuel + 1) env l st = buildChildren fuel env l st) := by
  intro fuel
  induction fuel with
  | zero =>
    refine ⟨?_, ?_, ?_, ?_, ?_, ?_⟩ <;>
      first
      | (intro env pkg target st hne; exact absurd rfl hne)
      | (intro env pkg tA rv cfg st hne; exact absurd rfl hne)
      | (intro env l st hne; exact absurd rfl hne)
      | (intro env gs st hne; exact absurd rfl hne)
  | succ f ih =>
    obtain ⟨ihP, ihA, ihC, ihB, ihG, ihD⟩ := ih
    refine ⟨?_, ?_, ?_, ?_, ?_, ?_⟩
    · intro env pkg target st hne
      rw [populate_succ_eq f env pkg target st] at hne
      rw [populate_succ_eq (f + 1) env pkg target st,
        populate_succ_eq f env pkg target st]
      split at hne
      · rename_i h1
        rw [if_pos h1, if_pos h1]
      · rename_i h1
        rw [if_neg h1, if_neg h1]
        split at hne
        · rfl
        · rename_i cfg heq
          split at hne
          · rename_i htr
            rw [if_pos htr, if_pos htr]
            split at hne
            · rfl
            · rfl
            · exact ihA env pkg target.addToPackageJson cfg.version cfg _
                hne
          · rename_i htr
            rw [if_neg htr, if_neg htr]
            exact ihA env pkg target.addToPackageJson cfg.version cfg _ hne
    · intro env pkg tA rv cfg st hne
      rw [pFMC_succ_eq f env pkg tA rv cfg st] at hne
      rw [pFMC_succ_eq (f + 1) env pkg tA rv cfg st,
        pFMC_succ_eq f env pkg tA rv cfg st]
      split at hne
      · rfl
      · rename_i us order st2 heq
        split at hne
        · rename_i hsc
          rw [if_pos hsc, if_pos hsc]
        · rename_i hsc
          rw [if_neg hsc, if_neg hsc]
          split at hne
          · rename_i st4 results heq2
            have hm := ihC env _ _
              (by rw [heq2]; intro hc; exact PRes.noConfusion hc)
            simp only [hm, heq2]
          · rename_i m heq2
            have hm := ihC env _ _
              (by rw [heq2]; intro hc; exact PRes.noConfusion hc)
            simp only [hm, heq2]
          · exact absurd rfl hne
    · intro env l st hne
      cases l with
      | nil => rw [populateChildren_succ_nil, populateChildren_succ_nil]
      | cons c rest =>
        rw [populateChildren_succ_cons f env c rest st] at hne
        rw [populateChildren_succ_cons (f + 1) env c rest st,
          populateChildren_succ_cons f env c rest st]
        split at hne
        · rename_i st1 gs heq
          have hm := ihP env c.1 c.2 st
            (by rw [heq]; intro hc; exact PRes.noConfusion hc)
          simp only [hm, heq]
          split at hne
          · rename_i st2 gss heq2
            have hm2 := ihC env rest st1
              (by rw [heq2]; intro hc; exact PRes.noConfusion hc)
            simp only [hm2, heq2]
          · rename_i m heq2
            have hm2 := ihC env rest st1
              (by rw [heq2]; intro hc; exact PRes.noConfusion hc)
            simp only [hm2, heq2]
          · exact absurd rfl hne
        · rename_i m heq
          have hm := ihP env c.1 c.2 st
            (by rw [heq]; intro hc; exact PRes.noConfusion hc)
          simp only [hm, heq]
        · exact absurd rfl hne
    · intro env pkg target st hne
      rw [buildPJU_succ_eq f env pkg target st] at hne
      rw [buildPJU_succ_eq (f + 1) env pkg target st,
        buildPJU_succ_eq f env pkg target st]
      split at hne
      · rename_i st1 gs heq
        have hm := ihP env pkg target st
          (by rw [heq]; intro hc; exact PRes.noConfusion hc)
        simp only [hm, heq]
        exact ihG env gs st1 hne
      · rename_i m heq
        have hm := ihP env pkg target st
          (by rw [heq]; intro hc; exact PRes.noConfusion hc)
        simp only [hm, heq]
      · exact absurd rfl hne
    · intro env gs st hne
      cases gs with
      | nil => rw [buildCheckGroups_succ_nil, buildCheckGroups_succ_nil]
      | cons g rest =>
        rw [buildCheckGroups_succ_cons f env g rest st] at hne
        rw [buildCheckGroups_succ_cons (f + 1) env g rest st,
          buildCheckGroups_succ_cons f env g rest st]
        split at hne
        · rename_i st1 u heq
          have hm := ihD env _ st
            (by rw [heq]; intro hc; exact PRes.noConfusion hc)
          simp only [hm, heq]
          exact ihG env rest st1 hne
        · rename_i m heq
          have hm := ihD env _ st
            (by rw [heq]; intro hc; exact PRes.noConfusion hc)
          simp only [hm, heq]
        · exact absurd rfl hne
    · intro env l st hne
      cases l with
      | nil => rw [buildChildren_succ_nil, buildChildren_succ_nil]
      | cons c rest =>
        rw [buildChildren_succ_cons f env c rest st] at hne
        rw [buildChildren_succ_cons (f + 1) env c rest st,
          buildChildren_succ_cons f env c rest st]
        split at hne
        · rename_i st1 u heq
          have hm := ihB env c.1 c.2 st
            (by rw [heq]; intro hc; exact PRes.noConfusion hc)
          simp only [hm, heq]
          exact ihD env rest st1 hne
        · rename_i m heq
          have hm := ihB env c.1 c.2 st
            (by rw [heq]; intro hc; exact PRes.noConfusion hc)
          simp only [hm, heq]
        · exact absurd rfl hne

/-- Extra fuel beyond a sufficient amount never changes the result. -/
theorem populate_fuel_le {f f2 : Nat} (h : f ≤ f2) (env : MigEnv)
    (pkg : String) (target : PkgUpdate) (st : MigState)
    (hne : populatePackageJsonUpdatesAndGetPackagesToCheck f env pkg target
      st ≠ .nofuel) :
    populatePackageJsonUpdatesAndGetPackagesToCheck f2 env pkg target st =
      populatePackageJsonUpdatesAndGetPackagesToCheck f env pkg target
        st := by
  induction f2 with
  | zero =>
    have hf : f = 0 := Nat.le_zero.mp h
    rw [hf]
  | succ k ih =>
    by_cases hk : f ≤ k
    · have hik := ih hk
      have hstep := (planner_fuel_succ k).1 env pkg target st
        (by rw [hik]; exact hne)
      rw [hstep, hik]
    · have hf : f = k + 1 := by omega
      rw [hf]

theorem pFMC_fuel_le {f f2 : Nat} (h : f ≤ f2) (env : MigEnv)
    (pkg : String) (tA : Option Sect) (rv : String) (cfg : MigConfig)
    (st : MigState)
    (hne : populateFromMigrationConfig f env pkg tA rv cfg st ≠ .nofuel) :
    populateFromMigrationConfig f2 env pkg tA rv cfg st =
      populateFromMigrationConfig f env pkg tA rv cfg st := by
  induction f2 with
  | zero =>
    have hf : f = 0 := Nat.le_zero.mp h
    rw [hf]
  | succ k ih =>
    by_cases hk : f ≤ k
    · have hik := ih hk
      have hstep := (planner_fuel_succ k).2.1 env pkg tA rv cfg st
        (by rw [hik]; exact hne)
      rw [hstep, hik]
    · have hf : f = k + 1 := by omega
      rw [hf]

theorem populateChildren_fuel_le {f f2 : Nat} (h : f ≤ f2) (env : MigEnv)
    (l : List (String × PkgUpdate)) (st : MigState)
    (hne : populateChildren f env l st ≠ .nofuel) :
    populateChildren f2 env l st = populateChildren f env l st := by
  induction f2 with
  | zero =>
    have hf : f = 0 := Nat.le_zero.mp h
    rw [hf]
  | succ k ih =>
    by_cases hk : f ≤ k
    · have hik := ih hk
      have hstep := (planner_fuel_succ k).2.2.1 env l st
        (by rw [hik]; exact hne)
      rw [hstep, hik]
    · have hf : f = k + 1 := by omega
      rw [hf]

theorem buildPJU_fuel_le {f f2 : Nat} (h : f ≤ f2) (env : MigEnv)
    (pkg : String) (target : PkgUpdate) (st : MigState)
    (hne : buildPackageJsonUpdates f env pkg target st ≠ .nofuel) :
    buildPackageJsonUpdates f2 env pkg target st =
      buildPackageJsonUpdates f env pkg target st := by
  induction f2 with
  | zero =>
    have hf : f = 0 := Nat.le_zero.mp h
    rw [hf]
  | succ k ih =>
    by_cases hk : f ≤ k
    · have hik := ih hk
      have hstep := (planner_fuel_succ k).2.2.2.1 env pkg target st
        (by rw [hik]; exact hne)
      rw [hstep, hik]
    · have hf : f = k + 1 := by omega
      rw [hf]

theorem buildCheckGroups_fuel_le {f f2 : Nat} (h : f ≤ f2) (env : MigEnv)
    (gs : List CheckGroup) (st : MigState)
    (hne : buildCheckGroups f env gs st ≠ .nofuel) :
    buildCheckGroups f2 env gs st = buildCheckGroups f env gs st := by
  induction f2 with
  | zero =>
    have hf : f = 0 := Nat.le_zero.mp h
    rw [hf]
  | succ k ih =>
    by_cases hk : f ≤ k
    · have hik := ih hk
      have hstep := (planner_fuel_succ k).2.2.2.2.1 env gs st
        (by rw [hik]; exact hne)
      rw [hstep, hik]
    · have hf : f = k + 1 := by omega
      rw [hf]

theorem buildChildren_fuel_le {f f2 : Nat} (h : f ≤ f2) (env : MigEnv)
    (l : List (String × PkgUpdate)) (st : MigState)
    (hne : buildChildren f env l st ≠ .nofuel) :
    buildChildren f2 env l st = buildChildren f env l st := by
  induction f2 with
  | zero =>
    have hf : f = 0 := Nat.le_zero.mp h
    rw [hf]
  | succ k ih =>
    by_cases hk : f ≤ k
    · have hik := ih hk
      have hstep := (planner_fuel_succ k).2.2.2.2.2 env l st
        (by rw [hik]; exact hne)
      rw [hstep, hik]
    · have hf : f = k + 1 := by omega
      rw [hf]

/-- A planner step that emits check groups passed the guard at a truthy
fetched version, so the coverage measure strictly drops. -/
theorem populate_psd (f : Nat) (env : MigEnv) (pkg : String)
    (target : PkgUpdate) (st st' : MigState) (v : List CheckGroup)
    (h : populatePackageJsonUpdatesAndGetPackagesToCheck f env pkg target
      st = .ok st' v) (hv : v ≠ []) :
    notCovCount env st' < notCovCount env st := by
  cases f with
  | zero => exact PRes.noConfusion h
  | succ f =>
    rw [populate_succ_eq f env pkg target st] at h
    split at h
    · injection h with h1 h2
      exact absurd h2.symm hv
    · rename_i h1
      split at h
      · exact PRes.noConfusion h
      · rename_i cfg heq
        split at h
        · rename_i htr
          split at h
          · exact PRes.noConfusion h
          · injection h with h1 h2
            exact absurd h2.symm hv
          · rename_i hg
            by_cases hcv : cfg.version = ""
            · rw [hcv] at h
              exact absurd (populateFromMigrationConfig_empty_value h) hv
            · have hpass : covB st pkg cfg.version = false :=
                covB_false_of_gteS_false hg
              have hlt := notCovCount_lt_guard_pass env st pkg _ cfg heq
                hpass hcv
              have hcov := ((planner_covPres f).2.1 env pkg
                target.addToPackageJson cfg.version cfg _ st' v h)
              exact lt_of_le_of_lt (notCovCount_le_of_covPres hcov) hlt
        · rename_i htr
          by_cases hcv : cfg.version = ""
          · rw [hcv] at h
            exact absurd (populateFromMigrationConfig_empty_value h) hv
          · have hpass : covB st pkg cfg.version = false :=
              covB_false_of_not_truthy (Bool.eq_false_iff.mpr htr)
                cfg.version
            have hlt := notCovCount_lt_guard_pass env st pkg _ cfg heq
              hpass hcv
            have hcov := ((planner_covPres f).2.1 env pkg
              target.addToPackageJson cfg.version cfg _ st' v h)
            exact lt_of_le_of_lt (notCovCount_le_of_covPres hcov) hlt

/-- Sequential descent into proposed packages runs on some finite fuel,
provided every populate call at a state no harder than `n` does. -/
theorem populateChildren_fuel_exists (env : MigEnv) (n : Nat)
    (hpop : ∀ (st2 : MigState), notCovCount env st2 ≤ n →
      ∀ (pkg : String) (target : PkgUpdate), ∃ f,
        populatePackageJsonUpdatesAndGetPackagesToCheck f env pkg target
          st2 ≠ .nofuel) :
    ∀ (l : List (String × PkgUpdate)) (st : MigState),
      notCovCount env st ≤ n →
        ∃ f, populateChildren f env l st ≠ .nofuel := by
  intro l
  induction l with
  | nil =>
    intro st hst
    refine ⟨1, ?_⟩
    rw [populateChildren_succ_nil]
    intro hc
    exact PRes.noConfusion hc
  | cons c rest ih =>
    intro st hst
    obtain ⟨f1, h1⟩ := hpop st hst c.1 c.2
    cases hp : populatePackageJsonUpdatesAndGetPackagesToCheck f1 env c.1
        c.2 st with
    | nofuel => exact absurd hp h1
    | thrown m =>
      refine ⟨f1 + 1, ?_⟩
      rw [populateChildren_succ_cons f1 env c rest st]
      simp only [hp]
      intro hc
      exact PRes.noConfusion hc
    | ok st1 gs =>
      have hcov := (planner_covPres f1).1 env c.1 c.2 st st1 gs hp
      have hst1 : notCovCount env st1 ≤ n :=
        le_trans (notCovCount_le_of_covPres hcov) hst
      obtain ⟨f2, h2⟩ := ih st1 hst1
      refine ⟨max f1 f2 + 1, ?_⟩
      rw [populateChildren_succ_cons (max f1 f2) env c rest st]
      have hpF : populatePackageJsonUpdatesAndGetPackagesToCheck
          (max f1 f2) env c.1 c.2 st = .ok st1 gs := by
        rw [populate_fuel_le (le_max_left f1 f2) env c.1 c.2 st
          (by rw [hp]; intro hc; exact PRes.noConfusion hc), hp]
      simp only [hpF]
      rw [populateChildren_fuel_le (le_max_right f1 f2) env rest st1 h2]
      cases hr : populateChildren f2 env rest st1 with
      | nofuel => exact absurd hr h2
      | thrown m =>
        simp only [hr]
        intro hc
        exact PRes.noConfusion hc
      | ok st2 gss =>
        simp only [hr]
        intro hc
        exact PRes.noConfusion hc

/-- The manifest walk after a guard pass runs on some finite fuel. -/
theorem pFMC_fuel_exists (env : MigEnv) (n : Nat)
    (hpop : ∀ (st2 : MigState), notCovCount env st2 ≤ n →
      ∀ (pkg : String) (target : PkgUpdate), ∃ f,
        populatePackageJsonUpdatesAndGetPackagesToCheck f env pkg target
          st2 ≠ .nofuel)
    (st : MigState) (hst : notCovCount env st ≤ n) (pkg : String)
    (tA : Option Sect) (rv : String) (cfg : MigConfig) :
    ∃ f, populateFromMigrationConfig f env pkg tA rv cfg st ≠ .nofuel := by
  cases hg : getPackageJsonUpdatesFromMigrationConfig env st pkg rv cfg with
  | error e =>
    refine ⟨1, ?_⟩
    rw [pFMC_succ_eq 0 env pkg tA rv cfg st]
    simp only [hg]
    intro hc
    exact PRes.noConfusion hc
  | ok pr =>
    obtain ⟨⟨us, order⟩, st2⟩ := pr
    by_cases hsc : us.any (fun u =>
        (env.interactive && truthy u.xPrompt) || !u.requires.isEmpty) = true
    · refine ⟨1, ?_⟩
      rw [pFMC_succ_eq 0 env pkg tA rv cfg st]
      simp only [hg]
      rw [if_pos hsc]
      intro hc
      exact PRes.noConfusion hc
    · have hst2 := getPJUFromConfig_state env st pkg rv cfg _ _ hg
      have hcoll : (addPackageJsonUpdate st2 pkg
          { version := rv, addToPackageJson := tA }).collectedVersions =
          st.collectedVersions := by
        rw [addPackageJsonUpdate_collectedVersions]
        exact hst2.1
      have hm3 := notCovCount_congr hcoll env
      obtain ⟨fc, hc⟩ := populateChildren_fuel_exists env n hpop
        (us.foldl (fun m c => mergePackages m (c.packages.getD [])) [])
        (addPackageJsonUpdate st2 pkg
          { version := rv, addToPackageJson := tA })
        (by rw [hm3]; exact hst)
      refine ⟨fc + 1, ?_⟩
      rw [pFMC_succ_eq fc env pkg tA rv cfg st]
      simp only [hg]
      rw [if_neg hsc]
      cases hr : populateChildren fc env
          (us.foldl (fun m c => mergePackages m (c.packages.getD [])) [])
          (addPackageJsonUpdate st2 pkg
            { version := rv, addToPackageJson := tA }) with
      | nofuel => exact absurd hr hc
      | thrown m =>
        simp only [hr]
        intro hcon
        exact PRes.noConfusion hcon
      | ok st4 results =>
        simp only [hr]
        intro hcon
        exact PRes.noConfusion hcon

/-- Strong induction on the coverage measure: every populate call runs on
some finite fuel. -/
theorem populate_fuel_exists_of_measure (env : MigEnv) : ∀ (n : Nat)
    (st : MigState), notCovCount env st ≤ n →
    ∀ (pkg : String) (target : PkgUpdate), ∃ f,
      populatePackageJsonUpdatesAndGetPackagesToCheck f env pkg target st ≠
        .nofuel := by
  intro n
  induction n using Nat.strong_induction_on with
  | _ n ih =>
    intro st hst pkg target
    by_cases h1 : truthy (getPkgVersion env st pkg) = false
    · refine ⟨1, ?_⟩
      rw [populate_succ_eq 0 env pkg target st, if_pos h1]
      intro hc
      exact PRes.noConfusion hc
    · cases hf : fetchConfig env pkg
          (if truthy (jsGet env.toPins pkg) = true then
            (jsGet env.toPins pkg).getD ""
          else target.version) with
      | none =>
        refine ⟨1, ?_⟩
        rw [populate_succ_eq 0 env pkg target st, if_neg h1]
        simp only [hf]
        intro hc
        exact PRes.noConfusion hc
      | some cfg =>
        by_cases htr : truthy (jsGet st.collectedVersions pkg) = true
        · cases hg : gteS ((jsGet st.collectedVersions pkg).getD "")
              cfg.version with
          | none =>
            refine ⟨1, ?_⟩
            rw [populate_succ_eq 0 env pkg target st, if_neg h1]
            simp only [hf]
            rw [if_pos htr]
            simp only [hg]
            intro hc
            exact PRes.noConfusion hc
          | some b =>
            cases b with
            | true =>
              refine ⟨1, ?_⟩
              rw [populate_succ_eq 0 env pkg target st, if_neg h1]
              simp only [hf]
              rw [if_pos htr]
              simp only [hg]
              intro hc
              exact PRes.noConfusion hc
            | false =>
              by_cases hcv : cfg.version = ""
              · have hfp : populateFromMigrationConfig 2 env pkg
                    target.addToPackageJson cfg.version cfg
                    { st with collectedVersions :=
                        objSet st.collectedVersions pkg cfg.version } ≠
                    .nofuel := by
                  rw [hcv]
                  exact populateFromMigrationConfig_empty_ok env pkg
                    target.addToPackageJson cfg _
                refine ⟨2 + 1, ?_⟩
                rw [populate_succ_eq 2 env pkg target st, if_neg h1]
                simp only [hf]
                rw [if_pos htr]
                simp only [hg]
                exact hfp
              · have hpass : covB st pkg cfg.version = false :=
                  covB_false_of_gteS_false hg
                have hlt := notCovCount_lt_guard_pass env st pkg _ cfg hf
                  hpass hcv
                have hlt2 := lt_of_lt_of_le hlt hst
                obtain ⟨fp, hfp⟩ := pFMC_fuel_exists env _ (ih _ hlt2) _
                  (le_refl _) pkg target.addToPackageJson cfg.version cfg
                refine ⟨fp + 1, ?_⟩
                rw [populate_succ_eq fp env pkg target st, if_neg h1]
                simp only [hf]
                rw [if_pos htr]
                simp only [hg]
                exact hfp
        · by_cases hcv : cfg.version = ""
          · have hfp : populateFromMigrationConfig 2 env pkg
                target.addToPackageJson cfg.version cfg
                { st with collectedVersions :=
                    objSet st.collectedVersions pkg cfg.version } ≠
                .nofuel := by
              rw [hcv]
              exact populateFromMigrationConfig_empty_ok env pkg
                target.addToPackageJson cfg _
            refine ⟨2 + 1, ?_⟩
            rw [populate_succ_eq 2 env pkg target st, if_neg h1]
            simp only [hf]
            rw [if_neg htr]
            exact hfp
          · have hpass : covB st pkg cfg.version = false :=
              covB_false_of_not_truthy (Bool.eq_false_iff.mpr htr)
                cfg.version
            have hlt := notCovCount_lt_guard_pass env st pkg _ cfg hf
              hpass hcv
            have hlt2 := lt_of_lt_of_le hlt hst
            obtain ⟨fp, hfp⟩ := pFMC_fuel_exists env _ (ih _ hlt2) _
              (le_refl _) pkg target.addToPackageJson cfg.version cfg
            refine ⟨fp + 1, ?_⟩
            rw [populate_succ_eq fp env pkg target st, if_neg h1]
            simp only [hf]
            rw [if_neg htr]
            exact hfp

/-- Every populate call terminates on some finite fuel. -/
theorem populate_fuel_exists (env : MigEnv) (pkg : String)
    (target : PkgUpdate) (st : MigState) :
    ∃ f, populatePackageJsonUpdatesAndGetPackagesToCheck f env pkg target
      st ≠ .nofuel :=
  populate_fuel_exists_of_measure env (notCovCount env st) st (le_refl _)
    pkg target

/-- Strong induction on the coverage measure for the outer walker: the
build recursion, which re-enters populate through check groups, also runs
on finite fuel.  The decrease argument: a populate call that hands back a
nonempty check-group list passed the guard at a truthy fetched version. -/
theorem build_fuel_exists_of_measure (env : MigEnv) : ∀ (n : Nat),
    (∀ (st : MigState), notCovCount env st ≤ n →
      ∀ (pkg : String) (target : PkgUpdate), ∃ f,
        buildPackageJsonUpdates f env pkg target st ≠ .nofuel) ∧
    (∀ (l : List (String × PkgUpdate)) (st : MigState),
      notCovCount env st ≤ n → ∃ f, buildChildren f env l st ≠ .nofuel) ∧
    (∀ (gs : List CheckGroup) (st : MigState), notCovCount env st ≤ n →
      ∃ f, buildCheckGroups f env gs st ≠ .nofuel) := by
  intro n
  induction n using Nat.strong_induction_on with
  | _ n ih =>
    have hB : ∀ (st : MigState), notCovCount env st ≤ n →
        ∀ (pkg : String) (target : PkgUpdate), ∃ f,
          buildPackageJsonUpdates f env pkg target st ≠ .nofuel := by
      intro st hst pkg target
      obtain ⟨f1, h1⟩ := populate_fuel_exists env pkg target st
      cases hp : populatePackageJsonUpdatesAndGetPackagesToCheck f1 env pkg
          target st with
      | nofuel => exact absurd hp h1
      | thrown m =>
        refine ⟨f1 + 1, ?_⟩
        rw [buildPJU_succ_eq f1 env pkg target st]
        simp only [hp]
        intro hc
        exact PRes.noConfusion hc
      | ok st1 gs =>
        by_cases hgs : gs = []
        · subst hgs
          refine ⟨max f1 1 + 1, ?_⟩
          rw [buildPJU_succ_eq (max f1 1) env pkg target st]
          have hpF : populatePackageJsonUpdatesAndGetPackagesToCheck
              (max f1 1) env pkg target st = .ok st1 [] := by
            rw [populate_fuel_le (le_max_left f1 1) env pkg target st
              (by rw [hp]; intro hc; exact PRes.noConfusion hc), hp]
          simp only [hpF]
          have hm1 : max f1 1 = (max f1 1 - 1) + 1 := by omega
          rw [hm1, buildCheckGroups_succ_nil]
          intro hc
          exact PRes.noConfusion hc
        · have hlt := populate_psd f1 env pkg target st st1 gs hp hgs
          have hlt2 := lt_of_lt_of_le hlt hst
          obtain ⟨f2, h2⟩ := (ih _ hlt2).2.2 gs st1 (le_refl _)
          refine ⟨max f1 f2 + 1, ?_⟩
          rw [buildPJU_succ_eq (max f1 f2) env pkg target st]
          have hpF : populatePackageJsonUpdatesAndGetPackagesToCheck
              (max f1 f2) env pkg target st = .ok st1 gs := by
            rw [populate_fuel_le (le_max_left f1 f2) env pkg target st
              (by rw [hp]; intro hc; exact PRes.noConfusion hc), hp]
          simp only [hpF]
          rw [buildCheckGroups_fuel_le (le_max_right f1 f2) env gs st1 h2]
          exact h2
    have hD : ∀ (l : List (String × PkgUpdate)) (st : MigState),
        notCovCount env st ≤ n → ∃ f, buildChildren f env l st ≠
          .nofuel := by
      intro l
      induction l with
      | nil =>
        intro st hst
        refine ⟨1, ?_⟩
        rw [buildChildren_succ_nil]
        intro hc
        exact PRes.noConfusion hc
      | cons c rest ihl =>
        intro st hst
        obtain ⟨f1, h1⟩ := hB st hst c.1 c.2
        cases hb : buildPackageJsonUpdates f1 env c.1 c.2 st with
        | nofuel => exact absurd hb h1
        | thrown m =>
          refine ⟨f1 + 1, ?_⟩
          rw [buildChildren_succ_cons f1 env c rest st]
          simp only [hb]
          intro hc
          exact PRes.noConfusion hc
        | ok st1 u =>
          have hcov := (planner_covPres f1).2.2.2.1 env c.1 c.2 st st1 u hb
          have hst1 : notCovCount env st1 ≤ n :=
            le_trans (notCovCount_le_of_covPres hcov) hst
          obtain ⟨f2, h2⟩ := ihl st1 hst1
          refine ⟨max f1 f2 + 1, ?_⟩
          rw [buildChildren_succ_cons (max f1 f2) env c rest st]
          have hbF : buildPackageJsonUpdates (max f1 f2) env c.1 c.2 st =
              .ok st1 u := by
            rw [buildPJU_fuel_le (le_max_left f1 f2) env c.1 c.2 st
              (by rw [hb]; intro hc; exact PRes.noConfusion hc), hb]
          simp only [hbF]
          rw [buildChildren_fuel_le (le_max_right f1 f2) env rest st1 h2]
          exact h2
    have hG : ∀ (gs : List CheckGroup) (st : MigState),
        notCovCount env st ≤ n → ∃ f, buildCheckGroups f env gs st ≠
          .nofuel := by
      intro gs
      induction gs with
      | nil =>
        intro st hst
        refine ⟨1, ?_⟩
        rw [buildCheckGroups_succ_nil]
        intro hc
        exact PRes.noConfusion hc
      | cons g rest ihg =>
        intro st hst
        obtain ⟨f1, h1⟩ := hD (collectFilteredUpdates env st g.updates [])
          st hst
        cases hb : buildChildren f1 env
            (collectFilteredUpdates env st g.updates []) st with
        | nofuel => exact absurd hb h1
        | thrown m =>
          refine ⟨f1 + 1, ?_⟩
          rw [buildCheckGroups_succ_cons f1 env g rest st]
          simp only [hb]
          intro hc
          exact PRes.noConfusion hc
        | ok st1 u =>
          have hcov := (planner_covPres f1).2.2.2.2.2 env _ st st1 u hb
          have hst1 : notCovCount env st1 ≤ n :=
            le_trans (notCovCount_le_of_covPres hcov) hst
          obtain ⟨f2, h2⟩ := ihg st1 hst1
          refine ⟨max f1 f2 + 1, ?_⟩
          rw [buildCheckGroups_succ_cons (max f1 f2) env g rest st]
          have hbF : buildChildren (max f1 f2) env
              (collectFilteredUpdates env st g.updates []) st =
              .ok st1 u := by
            rw [buildChildren_fuel_le (le_max_left f1 f2) env _ st
              (by rw [hb]; intro hc; exact PRes.noConfusion hc), hb]
          simp only [hbF]
          rw [buildCheckGroups_fuel_le (le_max_right f1 f2) env rest st1
            h2]
          exact h2
    exact ⟨hB, hD, hG⟩

/-- Every top-level build call terminates on some finite fuel. -/
theorem buildPJU_fuel_exists (env : MigEnv) (pkg : String)
    (target : PkgUpdate) (st : MigState) :
    ∃ f, buildPackageJsonUpdates f env pkg target st ≠ .nofuel :=
  (build_fuel_exists_of_measure env (notCovCount env st)).1 st (le_refl _)
    pkg target

/-- C2: the planner terminates for every input with a finite fetched
manifest graph (the fetch oracle is a finite list), including mutually
referencing package groups.  Conjunct 1 states the blocking mechanism: a
re-entry of an installed package whose freshly fetched version is at or
below the stored `collectedVersions` entry returns the empty check-group
list with the state unchanged.  Conjuncts 2 and 3 state termination itself:
some finite fuel makes the recursive populate walk, and the full build
walk, finish (with a result or a thrown error) rather than exhaust fuel. -/
theorem c2_planner_terminates :
    (∀ (env : MigEnv) (pkg : String) (target : PkgUpdate) (st : MigState)
        (f : Nat) (cfg : MigConfig),
      truthy (getPkgVersion env st pkg) = true →
      fetchConfig env pkg
        (if truthy (jsGet env.toPins pkg) = true then
          (jsGet env.toPins pkg).getD ""
        else target.version) = some cfg →
      truthy (jsGet st.collectedVersions pkg) = true →
      gteS ((jsGet st.collectedVersions pkg).getD "") cfg.version =
        some true →
      populatePackageJsonUpdatesAndGetPackagesToCheck (f + 1) env pkg
        target st = .ok st []) ∧
    (∀ (env : MigEnv) (pkg : String) (target : PkgUpdate) (st : MigState),
      ∃ f, populatePackageJsonUpdatesAndGetPackagesToCheck f env pkg target
        st ≠ .nofuel) ∧
    (∀ (env : MigEnv) (pkg : String) (target : PkgUpdate) (st : MigState),
      ∃ f, buildPackageJsonUpdates f env pkg target st ≠ .nofuel) := by
  refine ⟨?_, ?_, ?_⟩
  · intro env pkg target st f cfg hiv hf htr hg
    rw [populate_succ_eq f env pkg target st]
    rw [if_neg (by rw [hiv]; intro hc; exact Bool.noConfusion hc)]
    simp only [hf]
    rw [if_pos htr]
    simp only [hg]
  · intro env pkg target st
    exact populate_fuel_exists env pkg target st
  · intro env pkg target st
    exact buildPJU_fuel_exists env pkg target st

/-- Re-entry of `a` at a stored equal version in the cyclic two-package
environment returns the empty list without touching the state. -/
theorem c2_witness :
    populatePackageJsonUpdatesAndGetPackagesToCheck (0 + 1) migEnvCyclic
        "a" { version := "2.0.0" }
        { packageJsonUpdates := [],
          collectedVersions := [("a", "2.0.0")],
          installedPkgVersionOverrides := [] } =
      .ok { packageJsonUpdates := [],
            collectedVersions := [("a", "2.0.0")],
            installedPkgVersionOverrides := [] } [] :=
  c2_planner_terminates.1 migEnvCyclic "a" { version := "2.0.0" }
    { packageJsonUpdates := [],
      collectedVersions := [("a", "2.0.0")],
      installedPkgVersionOverrides := [] } 0
    { version := "2.0.0", packageGroup := .arr [.str "b"] }
    (by decide) (by decide) (by decide) (by decide)

end NxMigrate
